import Mathlib

/-
Verification of the notes_database provisioner (src/notes_database/init_db.py).

The script provisions a SQLite store: it creates tables `app_info`, `users`,
`notes`, `tags`, `note_tags` (plus a unique index on `notes.title`), then seeds
app metadata (INSERT OR REPLACE), a demo user (INSERT OR IGNORE), four tags
(INSERT OR IGNORE), four notes (INSERT ... ON CONFLICT(title) DO UPDATE) and
six note-tag associations (INSERT OR IGNORE), commits, and finally writes two
descriptor files.

The embedding below models the persisted store as a record of row lists (in
rowid order) together with table-existence flags (CREATE TABLE IF NOT EXISTS)
and the AUTOINCREMENT sequences (next id per table; SQLite AUTOINCREMENT never
reuses ids).  `CURRENT_TIMESTAMP` is modelled as a `Nat` supplied once per run
(the whole run executes at one clock reading).  Fallible statements return
`Option`: `none` models the Python exception aborting the run.
-/

namespace NotesDB

/-- Row of `app_info (id INTEGER PRIMARY KEY AUTOINCREMENT, key TEXT UNIQUE NOT NULL, value TEXT, created_at TIMESTAMP DEFAULT CURRENT_TIMESTAMP)`. -/
structure AppInfoRow where
  id : Nat
  key : String
  value : String
  created_at : Nat
  deriving DecidableEq, Repr

/-- Row of `users (id INTEGER PRIMARY KEY AUTOINCREMENT, username TEXT UNIQUE NOT NULL, email TEXT UNIQUE NOT NULL, created_at TIMESTAMP DEFAULT CURRENT_TIMESTAMP)`. -/
structure UserRow where
  id : Nat
  username : String
  email : String
  created_at : Nat
  deriving DecidableEq, Repr

/-- Row of `notes (id INTEGER PRIMARY KEY AUTOINCREMENT, title TEXT NOT NULL, content TEXT NOT NULL, user_id INTEGER NULL, is_archived INTEGER NOT NULL DEFAULT 0, created_at, updated_at)`. -/
structure NoteRow where
  id : Nat
  title : String
  content : String
  user_id : Option Nat
  is_archived : Nat
  created_at : Nat
  updated_at : Nat
  deriving DecidableEq, Repr

/-- Row of `tags (id INTEGER PRIMARY KEY AUTOINCREMENT, name TEXT NOT NULL UNIQUE, color TEXT NULL, created_at)`. -/
structure TagRow where
  id : Nat
  name : String
  color : Option String
  created_at : Nat
  deriving DecidableEq, Repr

/-- Row of `note_tags (note_id INTEGER NOT NULL, tag_id INTEGER NOT NULL, created_at, PRIMARY KEY (note_id, tag_id))`. -/
structure NoteTagRow where
  note_id : Nat
  tag_id : Nat
  created_at : Nat
  deriving DecidableEq, Repr

/-- The persisted SQLite store: table-existence flags (for CREATE TABLE IF NOT
EXISTS and the unique index), the rows of each table in rowid order, and the
AUTOINCREMENT sequence (next id) of each AUTOINCREMENT table. -/
structure DB where
  has_app_info : Bool
  has_users : Bool
  has_notes : Bool
  has_tags : Bool
  has_note_tags : Bool
  uq_notes_title : Bool
  app_info : List AppInfoRow
  users : List UserRow
  notes : List NoteRow
  tags : List TagRow
  note_tags : List NoteTagRow
  app_info_seq : Nat
  users_seq : Nat
  notes_seq : Nat
  tags_seq : Nat
  deriving DecidableEq, Repr

/-- A fresh store: no tables, no rows, all AUTOINCREMENT sequences at 1. -/
def emptyDB : DB :=
  { has_app_info := false, has_users := false, has_notes := false
    has_tags := false, has_note_tags := false, uq_notes_title := false
    app_info := [], users := [], notes := [], tags := [], note_tags := []
    app_info_seq := 1, users_seq := 1, notes_seq := 1, tags_seq := 1 }

/-- `_create_core_tables`: `CREATE TABLE IF NOT EXISTS app_info ...; CREATE TABLE IF NOT EXISTS users ...` — existing tables and all rows untouched. -/
def _create_core_tables (db : DB) : DB :=
  { db with has_app_info := true, has_users := true }

/-- `_create_notes_schema`: `CREATE TABLE IF NOT EXISTS` for notes, tags, note_tags (plus non-unique indexes, which have no observable effect on the data model). -/
def _create_notes_schema (db : DB) : DB :=
  { db with has_notes := true, has_tags := true, has_note_tags := true }

/-- `_ensure_notes_title_unique_index`: `CREATE UNIQUE INDEX IF NOT EXISTS uq_notes_title ON notes(title)`.
If the index already exists this is a no-op; otherwise creating it fails
(sqlite3.IntegrityError, modelled as `none`) when the existing rows contain
duplicate titles. -/
def _ensure_notes_title_unique_index (db : DB) : Option DB :=
  if db.uq_notes_title then some db
  else if (db.notes.map NoteRow.title).Nodup then some { db with uq_notes_title := true }
  else none

/-- The four fixed key/value pairs written by `_upsert_app_info`. -/
def appInfoSeed : List (String × String) :=
  [("project_name", "notes_database"),
   ("version", "0.2.0"),
   ("author", "John Doe"),
   ("description", "SQLite database for the Notemaster notes app (notes, tags, note_tags)")]

/-- One `INSERT OR REPLACE INTO app_info (key, value) VALUES (?, ?)`:
the conflicting row (same unique `key`) is deleted and a fresh row is inserted
with a new AUTOINCREMENT id and `created_at` defaulted to the current time. -/
def replaceAppInfo (db : DB) (k v : String) (now : Nat) : DB :=
  let fresh : AppInfoRow := { id := db.app_info_seq, key := k, value := v, created_at := now }
  { db with app_info := db.app_info.filter (fun r => r.key != k) ++ [fresh],
            app_info_seq := db.app_info_seq + 1 }

/-- `_upsert_app_info`: INSERT OR REPLACE each of the four fixed pairs in order. -/
def _upsert_app_info (db : DB) (now : Nat) : DB :=
  appInfoSeed.foldl (fun d kv => replaceAppInfo d kv.1 kv.2 now) db

/-- `_ensure_seed_user`: `INSERT OR IGNORE INTO users (username, email) VALUES
(\x27demo\x27, \x27demo@example.com\x27)` — ignored when the row conflicts with
either unique column — followed by `SELECT id FROM users WHERE username = ?`.
The second component models `int(row[0])`: `none` when the SELECT returns no
row (the Python code then raises, aborting the run). -/
def _ensure_seed_user (db : DB) (now : Nat) : DB × Option Nat :=
  let fresh : UserRow :=
    { id := db.users_seq, username := "demo", email := "demo@example.com", created_at := now }
  let db2 :=
    if db.users.any (fun u => u.username == "demo" || u.email == "demo@example.com") then db
    else { db with users := db.users ++ [fresh], users_seq := db.users_seq + 1 }
  (db2, (db2.users.find? (fun u => u.username == "demo")).map UserRow.id)

/-- The fixed (name, color) seed list of `_seed_tags`. -/
def tagSeed : List (String × String) :=
  [("work", "#3b82f6"),
   ("personal", "#06b6d4"),
   ("ideas", "#64748b"),
   ("urgent", "#ef4444")]

/-- One `INSERT OR IGNORE INTO tags (name, color) VALUES (?, ?)`: skipped when a
tag with that unique `name` already exists, otherwise appended with a fresh id. -/
def insertTagIfAbsent (db : DB) (name color : String) (now : Nat) : DB :=
  let fresh : TagRow := { id := db.tags_seq, name := name, color := some color, created_at := now }
  if db.tags.any (fun t => t.name == name) then db
  else { db with tags := db.tags ++ [fresh], tags_seq := db.tags_seq + 1 }

/-- `_seed_tags`: INSERT OR IGNORE each fixed (name, color) pair in order. -/
def _seed_tags (db : DB) (now : Nat) : DB :=
  tagSeed.foldl (fun d p => insertTagIfAbsent d p.1 p.2 now) db

/-- The fixed (title, content, is_archived) seed list of `_seed_notes`; the
`user_id` column of every seed note is the demo user id, supplied separately. -/
def noteSeed : List (String × String × Nat) :=
  [("Welcome to Notemaster",
    "This is a demo note to help you verify the UI end-to-end.\n\nTry editing this note, adding tags, and searching for keywords like \x27demo\x27 or \x27Notemaster\x27.",
    0),
   ("Retro checklist",
    "- Create a new note\n- Add tags\n- Search notes\n- Archive notes\n\nIf you can do all of these, the core UX is working.",
    0),
   ("Meeting notes (sample)",
    "Agenda:\n1) Status updates\n2) Blockers\n3) Next steps\n\nAction items:\n- Follow up on API integration\n- Confirm database schema supports tags",
    0),
   ("Archived example",
    "This is an archived note to test filtered views.",
    1)]

/-- Replace the first element satisfying `p` by its image under `f`; the
unique index on `notes.title` guarantees at most one conflicting row, so this
models `ON CONFLICT(title) DO UPDATE` exactly on every state SQLite can reach. -/
def updateFirst (p : α → Bool) (f : α → α) : List α → List α
  | [] => []
  | a :: as => if p a then f a :: as else a :: updateFirst p f as

/-- The DO UPDATE action of the notes upsert: overwrite content, owner and
archived flag and refresh `updated_at`, leaving id, title and `created_at`. -/
def updNote (content : String) (uid arch now : Nat) (n : NoteRow) : NoteRow :=
  { n with content := content, user_id := some uid, is_archived := arch, updated_at := now }

/-- The freshly inserted row of the notes upsert (new AUTOINCREMENT id, both
timestamps defaulted to now). -/
def freshNote (title content : String) (uid arch now seqid : Nat) : NoteRow :=
  { id := seqid, title := title, content := content, user_id := some uid,
    is_archived := arch, created_at := now, updated_at := now }

/-- One `INSERT INTO notes (title, content, user_id, is_archived) VALUES (?,?,?,?)
ON CONFLICT(title) DO UPDATE SET content=excluded.content, user_id=excluded.user_id,
is_archived=excluded.is_archived, updated_at=CURRENT_TIMESTAMP`.  When a row with
the title exists it is updated in place (id and created_at untouched); otherwise
a fresh row is inserted with a new id and both timestamps set to now. -/
def upsertNote (db : DB) (title content : String) (uid : Nat) (arch : Nat) (now : Nat) : DB :=
  if db.notes.any (fun n => n.title == title) then
    { db with notes := updateFirst (fun n => n.title == title) (updNote content uid arch now) db.notes }
  else
    { db with notes := db.notes ++ [freshNote title content uid arch now db.notes_seq], notes_seq := db.notes_seq + 1 }

/-- `_seed_notes`: upsert each fixed seed note in order, owned by `uid`. -/
def _seed_notes (db : DB) (uid : Nat) (now : Nat) : DB :=
  noteSeed.foldl (fun d s => upsertNote d s.1 s.2.1 uid s.2.2 now) db

/-- The fixed note-title to tag-names mapping of `_seed_note_tags`. -/
def noteTagSeed : List (String × List String) :=
  [("Welcome to Notemaster", ["ideas", "personal"]),
   ("Retro checklist", ["work", "urgent"]),
   ("Meeting notes (sample)", ["work"]),
   ("Archived example", ["personal"])]

/-- One `INSERT OR IGNORE INTO note_tags (note_id, tag_id) VALUES (?, ?)`:
skipped when the (note_id, tag_id) primary key already exists. -/
def insertNoteTagIfAbsent (db : DB) (note_id tag_id : Nat) (now : Nat) : DB :=
  if db.note_tags.any (fun nt => nt.note_id == note_id && nt.tag_id == tag_id) then db
  else { db with note_tags := db.note_tags ++ [{ note_id := note_id, tag_id := tag_id, created_at := now }] }

/-- Inner loop of `_seed_note_tags`: for each tag name, `SELECT id FROM tags
WHERE name = ?`; on a miss the association is silently skipped, otherwise
INSERT OR IGNORE the pair. -/
def seed_note_tags_loop (db : DB) (note_id : Nat) (now : Nat) : List String → DB
  | [] => db
  | tn :: rest =>
    let db2 :=
      match db.tags.find? (fun t => t.name == tn) with
      | none => db
      | some trow => insertNoteTagIfAbsent db note_id trow.id now
    seed_note_tags_loop db2 note_id now rest

/-- One iteration of the outer loop of `_seed_note_tags`: `SELECT id FROM notes
WHERE title = ?`, silently skipping the whole entry on a miss. -/
def seed_note_tags_step (db : DB) (m : String × List String) (now : Nat) : DB :=
  match db.notes.find? (fun n => n.title == m.1) with
  | none => db
  | some note_row => seed_note_tags_loop db note_row.id now m.2

/-- `_seed_note_tags`: for each mapping entry, resolve the note by title and
associate it with each named tag. -/
def _seed_note_tags (db : DB) (now : Nat) : DB :=
  noteTagSeed.foldl (fun d m => seed_note_tags_step d m now) db

/-- The schema statements executed by `main` before any seed DML: both
CREATE TABLE groups and the unique title index.  In Python sqlite3 (3.6+) DDL
statements run in autocommit mode (the implicit transaction is only opened by
DML), so exactly this part of the run is durable even if the run later fails
before `conn.commit()`. -/
def schema_phase (db : DB) : Option DB :=
  _ensure_notes_title_unique_index (_create_notes_schema (_create_core_tables db))

/-- One full provisioning run of `main` against the persisted store `db` at
clock reading `now`, up to and including `conn.commit()`: schema phase, app
metadata upsert, seed user, seed tags, seed notes, seed associations.
`none` models a Python exception aborting the run before commit (duplicate
pre-existing titles failing the unique index, or the seed-user lookup
returning no row). -/
def run (db : DB) (now : Nat) : Option DB :=
  (schema_phase db).bind (fun db1 =>
    match _ensure_seed_user (_upsert_app_info db1 now) now with
    | (_, none) => none
    | (db3, some demo_user_id) =>
      some (_seed_note_tags (_seed_notes (_seed_tags db3 now) demo_user_id now) now))

/-- Repeated runs of the provisioner at the given clock readings. -/
def runs (db : DB) : List Nat → Option DB
  | [] => some db
  | t :: ts => (run db t).bind (fun d => runs d ts)

/-- The persisted store after a run that fails at any point after the schema
statements and before a successful `conn.commit()` (for example a disk error
during seeding, or the seed-user lookup raising).  The sqlite3 connection is
closed by the `finally:` block without committing, which rolls back the
implicit transaction holding all seed DML, while the schema DDL statements
were already autocommitted as they executed. -/
def aborted_run (db : DB) : Option DB := schema_phase db

/-- Outcome of one filesystem operation in `_write_connection_files`. -/
inductive FsOutcome
  | ok
  | err
  deriving DecidableEq, Repr

/-- The filesystem behaviour `_write_connection_files` is exposed to: whether
writing `db_connection.txt` succeeds, whether the `db_visualizer` directory
already exists, whether `os.makedirs` succeeds, and whether writing
`db_visualizer/sqlite.env` succeeds. -/
structure FsEnv where
  conn_txt_write : FsOutcome
  db_visualizer_exists : Bool
  makedirs_result : FsOutcome
  env_file_write : FsOutcome
  deriving DecidableEq, Repr

/-- `_write_connection_files`: the two file writes sit inside try/except blocks
that only print a warning (collected in the returned list), but the
`os.makedirs("db_visualizer", ...)` call between them is not guarded — if it
raises, the exception escapes the function (`none`). -/
def _write_connection_files (env : FsEnv) : Option (List String) :=
  let warns1 : List String :=
    match env.conn_txt_write with
    | FsOutcome.ok => []
    | FsOutcome.err => ["Warning: Could not save connection info"]
  match (if env.db_visualizer_exists then some () else
         match env.makedirs_result with
         | FsOutcome.ok => some ()
         | FsOutcome.err => none) with
  | none => none
  | some _ =>
    match env.env_file_write with
    | FsOutcome.ok => some warns1
    | FsOutcome.err => some (warns1 ++ ["Warning: Could not save environment variables"])

/-- `main` as observed from outside: the committed store plus whether the
process succeeded.  `_write_connection_files` runs after `conn.commit()`, so a
failure escaping it fails the process (`false`) but cannot undo the commit;
the store-phase failures before commit yield `none` (nothing persisted beyond
the autocommitted schema, see `aborted_run`). -/
def main_run (db : DB) (now : Nat) (env : FsEnv) : Option (DB × Bool) :=
  match run db now with
  | none => none
  | some d =>
    match _write_connection_files env with
    | none => some (d, false)
    | some _ => some (d, true)

/-- Referential integrity of the association table: every `note_tags` row
references an existing note id and an existing tag id. -/
def refIntegrity (db : DB) : Prop :=
  ∀ nt ∈ db.note_tags,
    (∃ n ∈ db.notes, n.id = nt.note_id) ∧ (∃ tg ∈ db.tags, tg.id = nt.tag_id)

instance (db : DB) : Decidable (refIntegrity db) := by
  unfold refIntegrity; infer_instance

/-- The four fixed seed note titles. -/
def seedTitles : List String := noteSeed.map (fun s => s.1)

/-- The four fixed app metadata keys. -/
def seedKeys : List String := appInfoSeed.map (fun p => p.1)

/-- Everything about a note row except `updated_at` (the one field a repeated
run refreshes). -/
def noteCore (n : NoteRow) : Nat × String × String × Option Nat × Nat × Nat :=
  (n.id, n.title, n.content, n.user_id, n.is_archived, n.created_at)

/-- The (key, value) content of an app metadata row, ignoring the surrogate id
and creation timestamp that INSERT OR REPLACE regenerates. -/
def appKV (r : AppInfoRow) : String × String := (r.key, r.value)

/-- Rows whose key is none of the four fixed app metadata keys (the rows
`_upsert_app_info` leaves alone). -/
def notSeedAppKey (r : AppInfoRow) : Bool :=
  r.key != "description" && (r.key != "author" && (r.key != "version" && r.key != "project_name"))

/-- The four fresh rows `_upsert_app_info` appends when run with AUTOINCREMENT
sequence `i` at time `t`. -/
def appBlock (i t : Nat) : List AppInfoRow :=
  [{ id := i, key := "project_name", value := "notes_database", created_at := t },
   { id := i + 1, key := "version", value := "0.2.0", created_at := t },
   { id := i + 2, key := "author", value := "John Doe", created_at := t },
   { id := i + 3, key := "description", value := "SQLite database for the Notemaster notes app (notes, tags, note_tags)", created_at := t }]

/-- State of a store some successful run has already provisioned: the unique
title index exists, a demo user is found by the seed-user lookup, every seed
note is present (found by title) with the seed content, owner and archived
flag, every seed tag name is present, and every seed association between the
rows those lookups find is present. -/
def Provisioned (d : DB) : Prop :=
  d.uq_notes_title = true ∧
  (∃ uid, (d.users.find? (fun u => u.username == "demo")).map UserRow.id = some uid ∧
    ∀ s ∈ noteSeed, ∃ n, d.notes.find? (fun x => x.title == s.1) = some n ∧
      n.content = s.2.1 ∧ n.user_id = some uid ∧ n.is_archived = s.2.2) ∧
  (∀ p ∈ tagSeed, d.tags.any (fun t => t.name == p.1) = true) ∧
  (∀ m ∈ noteTagSeed, ∀ tn ∈ m.2, ∀ nrow trow,
      d.notes.find? (fun x => x.title == m.1) = some nrow →
      d.tags.find? (fun x => x.name == tn) = some trow →
      d.note_tags.any (fun nt => nt.note_id == nrow.id && nt.tag_id == trow.id) = true)

/-- A users table owning the seed email under a different username: the seed
INSERT OR IGNORE is ignored (email conflict) yet no row has username demo. -/
def badUsersDB : DB :=
  { emptyDB with
      users := [{ id := 1, username := "someone", email := "demo@example.com", created_at := 0 }],
      users_seq := 2 }

/-- A store whose whole schema (tables and unique index) already exists. -/
def dbAllTrue : DB :=
  { emptyDB with has_app_info := true, has_users := true, has_notes := true,
                 has_tags := true, has_note_tags := true, uq_notes_title := true }

/-- Filesystem behaviour where the `db_visualizer` directory is missing and
`os.makedirs` fails (for example, the working directory is not writable). -/
def envMkdirFail : FsEnv :=
  { conn_txt_write := FsOutcome.ok, db_visualizer_exists := false,
    makedirs_result := FsOutcome.err, env_file_write := FsOutcome.ok }

/-- Filesystem behaviour where both descriptor file writes fail but the
directory exists. -/
def envBothWriteFail : FsEnv :=
  { conn_txt_write := FsOutcome.err, db_visualizer_exists := true,
    makedirs_result := FsOutcome.ok, env_file_write := FsOutcome.err }

/-- A store already holding an app metadata row for key version. -/
def dbWithVersion : DB :=
  { emptyDB with
      app_info := [{ id := 1, key := "version", value := "9.9.9", created_at := 0 }],
      app_info_seq := 2 }

/-- A store already holding a note titled like a seed note, with different
content, owner, archived flag and timestamps. -/
def dbC2 : DB :=
  { emptyDB with
      notes := [{ id := 7, title := "Retro checklist", content := "my own retro plan",
                  user_id := none, is_archived := 5, created_at := 3, updated_at := 3 }],
      notes_seq := 8 }

/-- A store holding one pre-existing row in each table, none of them touched by
the seed data. -/
def dbC9 : DB :=
  { emptyDB with
      users := [{ id := 1, username := "alice", email := "alice@example.com", created_at := 0 }],
      users_seq := 2,
      notes := [{ id := 1, title := "My own note", content := "hello", user_id := none,
                  is_archived := 0, created_at := 0, updated_at := 0 }],
      notes_seq := 2,
      tags := [{ id := 1, name := "custom", color := some "#000000", created_at := 0 }],
      tags_seq := 2,
      note_tags := [{ note_id := 1, tag_id := 1, created_at := 0 }] }


/-- The store after the schema phase of a run on a fresh store (equal to
`dbAllTrue`), then after the app metadata upsert at time `t`. -/
def S1 (t : Nat) : DB := { dbAllTrue with app_info := appBlock 1 t, app_info_seq := 5 }

/-- The store after additionally ensuring the seed user at time `t`. -/
def S2 (t : Nat) : DB :=
  { S1 t with users := [{ id := 1, username := "demo", email := "demo@example.com", created_at := t }],
              users_seq := 2 }

/-- The store after additionally seeding the tags at time `t`. -/
def S3 (t : Nat) : DB :=
  { S2 t with
      tags := [{ id := 1, name := "work", color := some "#3b82f6", created_at := t },
               { id := 2, name := "personal", color := some "#06b6d4", created_at := t },
               { id := 3, name := "ideas", color := some "#64748b", created_at := t },
               { id := 4, name := "urgent", color := some "#ef4444", created_at := t }],
      tags_seq := 5 }

/-- The store after additionally seeding the notes at time `t`. -/
def S4 (t : Nat) : DB :=
  { S3 t with
      notes := [freshNote ("Welcome to Notemaster") ("This is a demo note to help you verify the UI end-to-end.\n\nTry editing this note, adding tags, and searching for keywords like \x27demo\x27 or \x27Notemaster\x27.") 1 0 t 1,
                freshNote ("Retro checklist") ("- Create a new note\n- Add tags\n- Search notes\n- Archive notes\n\nIf you can do all of these, the core UX is working.") 1 0 t 2,
                freshNote ("Meeting notes (sample)") ("Agenda:\n1) Status updates\n2) Blockers\n3) Next steps\n\nAction items:\n- Follow up on API integration\n- Confirm database schema supports tags") 1 0 t 3,
                freshNote ("Archived example") ("This is an archived note to test filtered views.") 1 1 t 4],
      notes_seq := 5 }

/-- The store after associating the first seed note with its tags at time `t`. -/
def N1 (t : Nat) : DB :=
  { S4 t with
      note_tags := [{ note_id := 1, tag_id := 3, created_at := t },
                    { note_id := 1, tag_id := 2, created_at := t }] }

/-- The store after associating the first two seed notes with their tags. -/
def N2 (t : Nat) : DB :=
  { S4 t with
      note_tags := [{ note_id := 1, tag_id := 3, created_at := t },
                    { note_id := 1, tag_id := 2, created_at := t },
                    { note_id := 2, tag_id := 1, created_at := t },
                    { note_id := 2, tag_id := 4, created_at := t }] }

/-- The store after associating the first three seed notes with their tags. -/
def N3 (t : Nat) : DB :=
  { S4 t with
      note_tags := [{ note_id := 1, tag_id := 3, created_at := t },
                    { note_id := 1, tag_id := 2, created_at := t },
                    { note_id := 2, tag_id := 1, created_at := t },
                    { note_id := 2, tag_id := 4, created_at := t },
                    { note_id := 3, tag_id := 1, created_at := t }] }

/-- The full store one run of the provisioner produces from a fresh store at
time `t`. -/
def provisionedEmpty (t : Nat) : DB :=
  { S4 t with
      note_tags := [{ note_id := 1, tag_id := 3, created_at := t },
                    { note_id := 1, tag_id := 2, created_at := t },
                    { note_id := 2, tag_id := 1, created_at := t },
                    { note_id := 2, tag_id := 4, created_at := t },
                    { note_id := 3, tag_id := 1, created_at := t },
                    { note_id := 4, tag_id := 2, created_at := t }] }

/-! Helper lemmas about `updateFirst`. -/

theorem length_updateFirst (p : α → Bool) (f : α → α) (l : List α) :
    (updateFirst p f l).length = l.length := by
  induction l with
  | nil => rfl
  | cons a as ih =>
    rw [updateFirst]
    split <;> simp [ih]

theorem map_updateFirst (g : α → β) (p : α → Bool) (f : α → α)
    (hf : ∀ a, g (f a) = g a) (l : List α) :
    (updateFirst p f l).map g = l.map g := by
  induction l with
  | nil => rfl
  | cons a as ih =>
    rw [updateFirst]
    split <;> simp [hf, ih]

theorem map_updateFirst_find? (g : α → β) (p : α → Bool) (f : α → α) (l : List α) (a : α)
    (h : l.find? p = some a) (hg : g (f a) = g a) :
    (updateFirst p f l).map g = l.map g := by
  induction l with
  | nil => simp at h
  | cons b bs ih =>
    rw [updateFirst]
    by_cases hb : p b = true
    · rw [if_pos hb]
      rw [List.find?_cons_of_pos _ hb] at h
      obtain rfl : b = a := by injection h
      simp [hg]
    · rw [if_neg hb]
      rw [List.find?_cons_of_neg _ (by simp [hb])] at h
      simp [ih h]

theorem find?_updateFirst_self (p : α → Bool) (f : α → α) (l : List α) (a : α)
    (hpf : p (f a) = true) (h : l.find? p = some a) :
    (updateFirst p f l).find? p = some (f a) := by
  induction l with
  | nil => simp at h
  | cons b bs ih =>
    rw [updateFirst]
    by_cases hb : p b = true
    · rw [if_pos hb]
      rw [List.find?_cons_of_pos _ hb] at h
      obtain rfl : b = a := by injection h
      rw [List.find?_cons_of_pos _ hpf]
    · rw [if_neg hb]
      rw [List.find?_cons_of_neg _ (by simp [hb])] at h
      rw [List.find?_cons_of_neg _ (by simp [hb])]
      exact ih h

theorem updateFirst_congr_find? (p : α → Bool) (f1 f2 : α → α) (l : List α) (a : α)
    (h : l.find? p = some a) (hf : f1 a = f2 a) :
    updateFirst p f1 l = updateFirst p f2 l := by
  induction l with
  | nil => rfl
  | cons b bs ih =>
    rw [updateFirst, updateFirst]
    by_cases hb : p b = true
    · rw [if_pos hb, if_pos hb]
      rw [List.find?_cons_of_pos _ hb] at h
      obtain rfl : b = a := by injection h
      rw [hf]
    · rw [if_neg hb, if_neg hb]
      rw [List.find?_cons_of_neg _ (by simp [hb])] at h
      rw [ih h]

theorem find?_updateFirst_other (q p : α → Bool) (f : α → α)
    (hq : ∀ a, q (f a) = q a) (hpq : ∀ a, p a = true → q a = false) (l : List α) :
    (updateFirst p f l).find? q = l.find? q := by
  induction l with
  | nil => rfl
  | cons b bs ih =>
    rw [updateFirst]
    by_cases hb : p b = true
    · rw [if_pos hb]
      have hqb : q b = false := hpq b hb
      rw [List.find?_cons_of_neg _ (by simp [hq b, hqb]),
          List.find?_cons_of_neg _ (by simp [hqb])]
    · rw [if_neg hb]
      by_cases hqb : q b = true
      · rw [List.find?_cons_of_pos _ hqb, List.find?_cons_of_pos _ hqb]
      · rw [List.find?_cons_of_neg _ (by simp [hqb]),
            List.find?_cons_of_neg _ (by simp [hqb])]
        exact ih

theorem mem_updateFirst_of_neg (p : α → Bool) (f : α → α) (l : List α) (a : α)
    (ha : a ∈ l) (hpa : p a = false) : a ∈ updateFirst p f l := by
  induction l with
  | nil => simp at ha
  | cons b bs ih =>
    rw [updateFirst]
    rcases List.mem_cons.mp ha with rfl | hmem
    · rw [if_neg (by simp [hpa])]
      exact List.mem_cons_self _ _
    · by_cases hb : p b = true
      · rw [if_pos hb]
        exact List.mem_cons_of_mem _ hmem
      · rw [if_neg hb]
        exact List.mem_cons_of_mem _ (ih hmem)

theorem mem_fold_updateFirst (t2 : Nat) :
    ∀ (l : List (String × String × Nat)) (ln : List NoteRow) (n : NoteRow), n ∈ ln →
      (∀ s ∈ l, n.title ≠ s.1) →
      n ∈ l.foldl (fun ln2 s2 => updateFirst (fun x => x.title == s2.1) (fun x => { x with updated_at := t2 }) ln2) ln := by
  intro l
  induction l with
  | nil => intro ln n hn _; exact hn
  | cons s0 rest ih =>
    intro ln n hn h
    rw [List.foldl_cons]
    refine ih _ n ?_ (fun s hs => h s (List.mem_cons_of_mem _ hs))
    refine mem_updateFirst_of_neg _ _ _ _ hn ?_
    exact beq_eq_false_iff_ne.mpr (h s0 (List.mem_cons_self _ _))

theorem fold_updateFirst_find_other (t2 : Nat) (T : String) :
    ∀ (l : List (String × String × Nat)), (∀ s ∈ l, T ≠ s.1) → ∀ ln : List NoteRow,
      (l.foldl (fun ln2 s2 => updateFirst (fun x => x.title == s2.1) (fun x => { x with updated_at := t2 }) ln2) ln).find?
        (fun x => x.title == T) = ln.find? (fun x => x.title == T) := by
  intro l
  induction l with
  | nil => intro _ ln; rfl
  | cons s0 rest ih =>
    intro h ln
    rw [List.foldl_cons]
    rw [ih (fun s hs => h s (List.mem_cons_of_mem _ hs)) _]
    refine find?_updateFirst_other (fun x => x.title == T) (fun x => x.title == s0.1)
      (fun x => { x with updated_at := t2 }) (fun x => rfl) ?_ ln
    intro x hx
    have hxt : x.title = s0.1 := by simpa using hx
    show (x.title == T) = false
    rw [hxt]
    exact beq_eq_false_iff_ne.mpr (Ne.symm (h s0 (List.mem_cons_self _ _)))

theorem fold_updateFirst_find (t2 : Nat) :
    ∀ (l : List (String × String × Nat)), (l.map Prod.fst).Nodup →
      ∀ (ln : List NoteRow), ∀ s ∈ l, ∀ n0 : NoteRow,
      ln.find? (fun x => x.title == s.1) = some n0 →
      (l.foldl (fun ln2 s2 => updateFirst (fun x => x.title == s2.1) (fun x => { x with updated_at := t2 }) ln2) ln).find?
        (fun x => x.title == s.1) = some { n0 with updated_at := t2 } := by
  intro l
  induction l with
  | nil => intro _ ln s hs; simp at hs
  | cons s0 rest ih =>
    intro hnd ln s hs n0 h0
    rw [List.foldl_cons]
    rw [List.map_cons, List.nodup_cons] at hnd
    rcases List.mem_cons.mp hs with rfl | hmem
    · rw [fold_updateFirst_find_other t2 s.1 rest ?_ _]
      · have hp0 : (n0.title == s.1) = true := by simpa using List.find?_some h0
        exact find?_updateFirst_self (fun x => x.title == s.1)
          (fun x => { x with updated_at := t2 }) ln n0 hp0 h0
      · intro s2 hs2 heq
        exact hnd.1 (heq ▸ List.mem_map_of_mem _ hs2)
    · have hne : s.1 ≠ s0.1 := by
        intro he
        exact hnd.1 (he ▸ List.mem_map_of_mem _ hmem)
      refine ih hnd.2 _ s hmem n0 ?_
      rw [find?_updateFirst_other (fun x => x.title == s.1) (fun x => x.title == s0.1)
        (fun x => { x with updated_at := t2 }) (fun x => rfl) ?_ ln]
      · exact h0
      · intro x hx
        have hxt : x.title = s0.1 := by simpa using hx
        show (x.title == s.1) = false
        rw [hxt]
        exact beq_eq_false_iff_ne.mpr (Ne.symm hne)

/-! Frame lemmas: which parts of the store each operation leaves untouched. -/

@[simp] theorem ra_users (db : DB) (k v : String) (t : Nat) : (replaceAppInfo db k v t).users = db.users := rfl
@[simp] theorem ra_notes (db : DB) (k v : String) (t : Nat) : (replaceAppInfo db k v t).notes = db.notes := rfl
@[simp] theorem ra_tags (db : DB) (k v : String) (t : Nat) : (replaceAppInfo db k v t).tags = db.tags := rfl
@[simp] theorem ra_note_tags (db : DB) (k v : String) (t : Nat) : (replaceAppInfo db k v t).note_tags = db.note_tags := rfl
@[simp] theorem ra_uq (db : DB) (k v : String) (t : Nat) : (replaceAppInfo db k v t).uq_notes_title = db.uq_notes_title := rfl

@[simp] theorem ua_users (db : DB) (t : Nat) : (_upsert_app_info db t).users = db.users := rfl
@[simp] theorem ua_notes (db : DB) (t : Nat) : (_upsert_app_info db t).notes = db.notes := rfl
@[simp] theorem ua_tags (db : DB) (t : Nat) : (_upsert_app_info db t).tags = db.tags := rfl
@[simp] theorem ua_note_tags (db : DB) (t : Nat) : (_upsert_app_info db t).note_tags = db.note_tags := rfl
@[simp] theorem ua_uq (db : DB) (t : Nat) : (_upsert_app_info db t).uq_notes_title = db.uq_notes_title := rfl

@[simp] theorem eu_app_info (db : DB) (t : Nat) : ((_ensure_seed_user db t).1).app_info = db.app_info := by
  unfold _ensure_seed_user; dsimp only; split <;> rfl
@[simp] theorem eu_notes (db : DB) (t : Nat) : ((_ensure_seed_user db t).1).notes = db.notes := by
  unfold _ensure_seed_user; dsimp only; split <;> rfl
@[simp] theorem eu_tags (db : DB) (t : Nat) : ((_ensure_seed_user db t).1).tags = db.tags := by
  unfold _ensure_seed_user; dsimp only; split <;> rfl
@[simp] theorem eu_note_tags (db : DB) (t : Nat) : ((_ensure_seed_user db t).1).note_tags = db.note_tags := by
  unfold _ensure_seed_user; dsimp only; split <;> rfl
@[simp] theorem eu_uq (db : DB) (t : Nat) : ((_ensure_seed_user db t).1).uq_notes_title = db.uq_notes_title := by
  unfold _ensure_seed_user; dsimp only; split <;> rfl

theorem eu_users_append (db : DB) (t : Nat) :
    ∃ s, ((_ensure_seed_user db t).1).users = db.users ++ s := by
  unfold _ensure_seed_user; dsimp only; split
  · exact ⟨[], by simp⟩
  · exact ⟨_, rfl⟩

theorem eu_snd (db : DB) (t : Nat) :
    (_ensure_seed_user db t).2 =
      (((_ensure_seed_user db t).1).users.find? (fun u => u.username == "demo")).map UserRow.id := rfl

@[simp] theorem it_users (db : DB) (n c : String) (t : Nat) : (insertTagIfAbsent db n c t).users = db.users := by
  unfold insertTagIfAbsent; dsimp only; split <;> rfl
@[simp] theorem it_notes (db : DB) (n c : String) (t : Nat) : (insertTagIfAbsent db n c t).notes = db.notes := by
  unfold insertTagIfAbsent; dsimp only; split <;> rfl
@[simp] theorem it_note_tags (db : DB) (n c : String) (t : Nat) : (insertTagIfAbsent db n c t).note_tags = db.note_tags := by
  unfold insertTagIfAbsent; dsimp only; split <;> rfl
@[simp] theorem it_app_info (db : DB) (n c : String) (t : Nat) : (insertTagIfAbsent db n c t).app_info = db.app_info := by
  unfold insertTagIfAbsent; dsimp only; split <;> rfl
@[simp] theorem it_uq (db : DB) (n c : String) (t : Nat) : (insertTagIfAbsent db n c t).uq_notes_title = db.uq_notes_title := by
  unfold insertTagIfAbsent; dsimp only; split <;> rfl

@[simp] theorem st_users (db : DB) (t : Nat) : (_seed_tags db t).users = db.users := by
  simp [_seed_tags, tagSeed]
@[simp] theorem st_notes (db : DB) (t : Nat) : (_seed_tags db t).notes = db.notes := by
  simp [_seed_tags, tagSeed]
@[simp] theorem st_note_tags (db : DB) (t : Nat) : (_seed_tags db t).note_tags = db.note_tags := by
  simp [_seed_tags, tagSeed]
@[simp] theorem st_app_info (db : DB) (t : Nat) : (_seed_tags db t).app_info = db.app_info := by
  simp [_seed_tags, tagSeed]
@[simp] theorem st_uq (db : DB) (t : Nat) : (_seed_tags db t).uq_notes_title = db.uq_notes_title := by
  simp [_seed_tags, tagSeed]

@[simp] theorem un_users (db : DB) (ti c : String) (u a t : Nat) : (upsertNote db ti c u a t).users = db.users := by
  unfold upsertNote; split <;> rfl
@[simp] theorem un_tags (db : DB) (ti c : String) (u a t : Nat) : (upsertNote db ti c u a t).tags = db.tags := by
  unfold upsertNote; split <;> rfl
@[simp] theorem un_note_tags (db : DB) (ti c : String) (u a t : Nat) : (upsertNote db ti c u a t).note_tags = db.note_tags := by
  unfold upsertNote; split <;> rfl
@[simp] theorem un_app_info (db : DB) (ti c : String) (u a t : Nat) : (upsertNote db ti c u a t).app_info = db.app_info := by
  unfold upsertNote; split <;> rfl
@[simp] theorem un_uq (db : DB) (ti c : String) (u a t : Nat) : (upsertNote db ti c u a t).uq_notes_title = db.uq_notes_title := by
  unfold upsertNote; split <;> rfl

@[simp] theorem sn_users (db : DB) (u t : Nat) : (_seed_notes db u t).users = db.users := by
  simp [_seed_notes, noteSeed]
@[simp] theorem sn_tags (db : DB) (u t : Nat) : (_seed_notes db u t).tags = db.tags := by
  simp [_seed_notes, noteSeed]
@[simp] theorem sn_note_tags (db : DB) (u t : Nat) : (_seed_notes db u t).note_tags = db.note_tags := by
  simp [_seed_notes, noteSeed]
@[simp] theorem sn_app_info (db : DB) (u t : Nat) : (_seed_notes db u t).app_info = db.app_info := by
  simp [_seed_notes, noteSeed]
@[simp] theorem sn_uq (db : DB) (u t : Nat) : (_seed_notes db u t).uq_notes_title = db.uq_notes_title := by
  simp [_seed_notes, noteSeed]

@[simp] theorem int_users (db : DB) (ni ti t : Nat) : (insertNoteTagIfAbsent db ni ti t).users = db.users := by
  unfold insertNoteTagIfAbsent; split <;> rfl
@[simp] theorem int_notes (db : DB) (ni ti t : Nat) : (insertNoteTagIfAbsent db ni ti t).notes = db.notes := by
  unfold insertNoteTagIfAbsent; split <;> rfl
@[simp] theorem int_tags (db : DB) (ni ti t : Nat) : (insertNoteTagIfAbsent db ni ti t).tags = db.tags := by
  unfold insertNoteTagIfAbsent; split <;> rfl
@[simp] theorem int_app_info (db : DB) (ni ti t : Nat) : (insertNoteTagIfAbsent db ni ti t).app_info = db.app_info := by
  unfold insertNoteTagIfAbsent; split <;> rfl
@[simp] theorem int_uq (db : DB) (ni ti t : Nat) : (insertNoteTagIfAbsent db ni ti t).uq_notes_title = db.uq_notes_title := by
  unfold insertNoteTagIfAbsent; split <;> rfl

theorem int_note_tags_append (db : DB) (ni ti t : Nat) :
    ∃ s, (insertNoteTagIfAbsent db ni ti t).note_tags = db.note_tags ++ s := by
  unfold insertNoteTagIfAbsent; split
  · exact ⟨[], by simp⟩
  · exact ⟨_, rfl⟩

@[simp] theorem lp_users (l : List String) : ∀ (db : DB) (ni t : Nat),
    (seed_note_tags_loop db ni t l).users = db.users := by
  induction l with
  | nil => intro db ni t; rfl
  | cons tn rest ih =>
    intro db ni t
    rw [seed_note_tags_loop]
    split <;> rw [ih] <;> simp
@[simp] theorem lp_notes (l : List String) : ∀ (db : DB) (ni t : Nat),
    (seed_note_tags_loop db ni t l).notes = db.notes := by
  induction l with
  | nil => intro db ni t; rfl
  | cons tn rest ih =>
    intro db ni t
    rw [seed_note_tags_loop]
    split <;> rw [ih] <;> simp
@[simp] theorem lp_tags (l : List String) : ∀ (db : DB) (ni t : Nat),
    (seed_note_tags_loop db ni t l).tags = db.tags := by
  induction l with
  | nil => intro db ni t; rfl
  | cons tn rest ih =>
    intro db ni t
    rw [seed_note_tags_loop]
    split <;> rw [ih] <;> simp
@[simp] theorem lp_app_info (l : List String) : ∀ (db : DB) (ni t : Nat),
    (seed_note_tags_loop db ni t l).app_info = db.app_info := by
  induction l with
  | nil => intro db ni t; rfl
  | cons tn rest ih =>
    intro db ni t
    rw [seed_note_tags_loop]
    split <;> rw [ih] <;> simp
@[simp] theorem lp_uq (l : List String) : ∀ (db : DB) (ni t : Nat),
    (seed_note_tags_loop db ni t l).uq_notes_title = db.uq_notes_title := by
  induction l with
  | nil => intro db ni t; rfl
  | cons tn rest ih =>
    intro db ni t
    rw [seed_note_tags_loop]
    split <;> rw [ih] <;> simp

@[simp] theorem stp_users (db : DB) (m : String × List String) (t : Nat) :
    (seed_note_tags_step db m t).users = db.users := by
  unfold seed_note_tags_step; split <;> simp
@[simp] theorem stp_notes (db : DB) (m : String × List String) (t : Nat) :
    (seed_note_tags_step db m t).notes = db.notes := by
  unfold seed_note_tags_step; split <;> simp
@[simp] theorem stp_tags (db : DB) (m : String × List String) (t : Nat) :
    (seed_note_tags_step db m t).tags = db.tags := by
  unfold seed_note_tags_step; split <;> simp
@[simp] theorem stp_app_info (db : DB) (m : String × List String) (t : Nat) :
    (seed_note_tags_step db m t).app_info = db.app_info := by
  unfold seed_note_tags_step; split <;> simp
@[simp] theorem stp_uq (db : DB) (m : String × List String) (t : Nat) :
    (seed_note_tags_step db m t).uq_notes_title = db.uq_notes_title := by
  unfold seed_note_tags_step; split <;> simp

@[simp] theorem snt_users (db : DB) (t : Nat) : (_seed_note_tags db t).users = db.users := by
  simp [_seed_note_tags, noteTagSeed]
@[simp] theorem snt_notes (db : DB) (t : Nat) : (_seed_note_tags db t).notes = db.notes := by
  simp [_seed_note_tags, noteTagSeed]
@[simp] theorem snt_tags (db : DB) (t : Nat) : (_seed_note_tags db t).tags = db.tags := by
  simp [_seed_note_tags, noteTagSeed]
@[simp] theorem snt_app_info (db : DB) (t : Nat) : (_seed_note_tags db t).app_info = db.app_info := by
  simp [_seed_note_tags, noteTagSeed]
@[simp] theorem snt_uq (db : DB) (t : Nat) : (_seed_note_tags db t).uq_notes_title = db.uq_notes_title := by
  simp [_seed_note_tags, noteTagSeed]

theorem schema_phase_spec (db s : DB) (h : schema_phase db = some s) :
    s.app_info = db.app_info ∧ s.users = db.users ∧ s.notes = db.notes ∧
    s.tags = db.tags ∧ s.note_tags = db.note_tags ∧
    s.app_info_seq = db.app_info_seq ∧ s.users_seq = db.users_seq ∧
    s.notes_seq = db.notes_seq ∧ s.tags_seq = db.tags_seq ∧
    s.uq_notes_title = true ∧
    (db.uq_notes_title = false → (db.notes.map NoteRow.title).Nodup) := by
  unfold schema_phase _ensure_notes_title_unique_index _create_notes_schema _create_core_tables at h
  dsimp only at h
  split at h
  · obtain rfl : _ = s := by injection h
    refine ⟨rfl, rfl, rfl, rfl, rfl, rfl, rfl, rfl, rfl, by assumption, ?_⟩
    intro hf
    simp_all
  · split at h
    · obtain rfl : _ = s := by injection h
      refine ⟨rfl, rfl, rfl, rfl, rfl, rfl, rfl, rfl, rfl, rfl, ?_⟩
      intro _
      assumption
    · exact absurd h (by simp)

theorem schema_phase_of_uq (db : DB) (h : db.uq_notes_title = true) :
    schema_phase db = some { db with has_app_info := true, has_users := true,
                                     has_notes := true, has_tags := true, has_note_tags := true } := by
  unfold schema_phase _ensure_notes_title_unique_index _create_notes_schema _create_core_tables
  simp [h]

/-! Characterization of `_upsert_app_info`. -/

theorem ua_app_spec (db : DB) (t : Nat) :
    (_upsert_app_info db t).app_info =
      db.app_info.filter notSeedAppKey ++ appBlock db.app_info_seq t := by
  simp only [_upsert_app_info, appInfoSeed, replaceAppInfo, List.foldl_cons, List.foldl_nil, appBlock]
  simp [List.filter_append]
  rfl

theorem ua_seq (db : DB) (t : Nat) : (_upsert_app_info db t).app_info_seq = db.app_info_seq + 4 := rfl

/-! Characterization of `_ensure_seed_user`. -/

theorem eu_of_demo {db : DB} {t : Nat}
    (h : db.users.any (fun u => u.username == "demo") = true) :
    _ensure_seed_user db t = (db, (db.users.find? (fun u => u.username == "demo")).map UserRow.id) := by
  unfold _ensure_seed_user
  dsimp only
  rw [if_pos]
  rw [List.any_eq_true] at h ⊢
  obtain ⟨u, hu, hd⟩ := h
  exact ⟨u, hu, by simp [hd]⟩

theorem eu_demo_found {db : DB} {t : Nat} {uid : Nat}
    (h : (_ensure_seed_user db t).2 = some uid) :
    ∃ u, ((_ensure_seed_user db t).1).users.find? (fun x => x.username == "demo") = some u ∧
      u.id = uid := by
  rw [eu_snd] at h
  rcases Option.map_eq_some'.mp h with ⟨u, hu, hid⟩
  exact ⟨u, hu, hid⟩

/-! Characterization of tag seeding. -/

theorem it_present (db : DB) (n c : String) (t : Nat) :
    (insertTagIfAbsent db n c t).tags.any (fun x => x.name == n) = true := by
  unfold insertTagIfAbsent
  dsimp only
  split
  · assumption
  · simp

theorem it_any_mono {db : DB} {q : TagRow → Bool} (n c : String) (t : Nat)
    (h : db.tags.any q = true) :
    (insertTagIfAbsent db n c t).tags.any q = true := by
  unfold insertTagIfAbsent
  dsimp only
  split
  · exact h
  · simp only [List.any_append, h, Bool.true_or]

theorem it_noop {db : DB} {n : String} (c : String) (t : Nat)
    (h : db.tags.any (fun x => x.name == n) = true) :
    insertTagIfAbsent db n c t = db := by
  unfold insertTagIfAbsent
  dsimp only
  rw [if_pos h]

theorem it_append (db : DB) (n c : String) (t : Nat) :
    ∃ s, (insertTagIfAbsent db n c t).tags = db.tags ++ s ∧
      ∀ r ∈ s, r.name = n ∧ db.tags.any (fun x => x.name == n) = false := by
  unfold insertTagIfAbsent
  dsimp only
  split
  · exact ⟨[], by simp⟩
  · refine ⟨_, rfl, ?_⟩
    intro r hr
    rw [List.mem_singleton] at hr
    subst hr
    constructor
    · rfl
    · simp_all

theorem st_present (db : DB) (t : Nat) :
    ∀ p ∈ tagSeed, (_seed_tags db t).tags.any (fun x => x.name == p.1) = true := by
  intro p hp
  have hunf : _seed_tags db t =
      insertTagIfAbsent (insertTagIfAbsent (insertTagIfAbsent (insertTagIfAbsent db
        ("work") ("#3b82f6") t) ("personal") ("#06b6d4") t) ("ideas") ("#64748b") t) ("urgent") ("#ef4444") t := rfl
  rw [hunf]
  simp only [tagSeed, List.mem_cons, List.not_mem_nil, or_false] at hp
  rcases hp with rfl | rfl | rfl | rfl
  · exact it_any_mono _ _ _ (it_any_mono _ _ _ (it_any_mono _ _ _ (it_present _ _ _ _)))
  · exact it_any_mono _ _ _ (it_any_mono _ _ _ (it_present _ _ _ _))
  · exact it_any_mono _ _ _ (it_present _ _ _ _)
  · exact it_present _ _ _ _

theorem st_noop {db : DB} (t : Nat)
    (h : ∀ p ∈ tagSeed, db.tags.any (fun x => x.name == p.1) = true) :
    _seed_tags db t = db := by
  have hunf : _seed_tags db t =
      insertTagIfAbsent (insertTagIfAbsent (insertTagIfAbsent (insertTagIfAbsent db
        ("work") ("#3b82f6") t) ("personal") ("#06b6d4") t) ("ideas") ("#64748b") t) ("urgent") ("#ef4444") t := rfl
  rw [hunf]
  have h1 := h ("work", "#3b82f6") (by simp [tagSeed])
  have h2 := h ("personal", "#06b6d4") (by simp [tagSeed])
  have h3 := h ("ideas", "#64748b") (by simp [tagSeed])
  have h4 := h ("urgent", "#ef4444") (by simp [tagSeed])
  rw [it_noop _ _ h1, it_noop _ _ h2, it_noop _ _ h3, it_noop _ _ h4]

theorem st_append (db : DB) (t : Nat) :
    ∃ s, (_seed_tags db t).tags = db.tags ++ s ∧
      ∀ r ∈ s, (∀ t0 ∈ db.tags, t0.name ≠ r.name) ∧ r.name ∈ tagSeed.map Prod.fst := by
  have hunf : _seed_tags db t =
      insertTagIfAbsent (insertTagIfAbsent (insertTagIfAbsent (insertTagIfAbsent db
        ("work") ("#3b82f6") t) ("personal") ("#06b6d4") t) ("ideas") ("#64748b") t) ("urgent") ("#ef4444") t := rfl
  obtain ⟨s1, e1, p1⟩ := it_append db ("work") ("#3b82f6") t
  obtain ⟨s2, e2, p2⟩ := it_append (insertTagIfAbsent db ("work") ("#3b82f6") t) ("personal") ("#06b6d4") t
  obtain ⟨s3, e3, p3⟩ := it_append (insertTagIfAbsent (insertTagIfAbsent db ("work") ("#3b82f6") t)
    ("personal") ("#06b6d4") t) ("ideas") ("#64748b") t
  obtain ⟨s4, e4, p4⟩ := it_append (insertTagIfAbsent (insertTagIfAbsent (insertTagIfAbsent db
    ("work") ("#3b82f6") t) ("personal") ("#06b6d4") t) ("ideas") ("#64748b") t) ("urgent") ("#ef4444") t
  have sub1 : db.tags ⊆ (insertTagIfAbsent db ("work") ("#3b82f6") t).tags := by
    rw [e1]; exact List.subset_append_left _ _
  have sub2 : db.tags ⊆ (insertTagIfAbsent (insertTagIfAbsent db ("work") ("#3b82f6") t)
      ("personal") ("#06b6d4") t).tags := by
    rw [e2]; exact List.Subset.trans sub1 (List.subset_append_left _ _)
  have sub3 : db.tags ⊆ (insertTagIfAbsent (insertTagIfAbsent (insertTagIfAbsent db
      ("work") ("#3b82f6") t) ("personal") ("#06b6d4") t) ("ideas") ("#64748b") t).tags := by
    rw [e3]; exact List.Subset.trans sub2 (List.subset_append_left _ _)
  refine ⟨s1 ++ (s2 ++ (s3 ++ s4)), ?_, ?_⟩
  · rw [hunf, e4, e3, e2, e1]
    simp [List.append_assoc]
  · intro r hr
    have absent : ∀ {l1 : List TagRow} {nm : String}, l1.any (fun x => x.name == nm) = false →
        db.tags ⊆ l1 → ∀ t0 ∈ db.tags, t0.name ≠ nm := by
      intro l1 nm hany hsub t0 ht0 heq
      rw [List.any_eq_false] at hany
      exact hany t0 (hsub ht0) (by simp [heq])
    simp only [List.mem_append] at hr
    rcases hr with h1 | h2 | h3 | h4
    · obtain ⟨hn, ha⟩ := p1 r h1
      refine ⟨?_, by simp [tagSeed, hn]⟩
      rw [hn]; exact absent ha (fun x hx => hx)
    · obtain ⟨hn, ha⟩ := p2 r h2
      refine ⟨?_, by simp [tagSeed, hn]⟩
      rw [hn]; exact absent ha sub1
    · obtain ⟨hn, ha⟩ := p3 r h3
      refine ⟨?_, by simp [tagSeed, hn]⟩
      rw [hn]; exact absent ha sub2
    · obtain ⟨hn, ha⟩ := p4 r h4
      refine ⟨?_, by simp [tagSeed, hn]⟩
      rw [hn]; exact absent ha sub3

/-! Characterization of note upserting. -/

theorem un_update {db : DB} {title : String} (c : String) (uid a t : Nat)
    (h : db.notes.any (fun n => n.title == title) = true) :
    upsertNote db title c uid a t =
      { db with notes := updateFirst (fun n => n.title == title) (updNote c uid a t) db.notes } := by
  unfold upsertNote
  rw [if_pos h]

theorem un_insert {db : DB} {title : String} (c : String) (uid a t : Nat)
    (h : db.notes.any (fun n => n.title == title) = false) :
    upsertNote db title c uid a t =
      { db with notes := db.notes ++ [freshNote title c uid a t db.notes_seq], notes_seq := db.notes_seq + 1 } := by
  unfold upsertNote
  rw [if_neg (by simp [h])]

theorem un_find_update {db : DB} {title : String} {n0 : NoteRow} (c : String) (uid a t : Nat)
    (h0 : db.notes.find? (fun x => x.title == title) = some n0) :
    (upsertNote db title c uid a t).notes.find? (fun x => x.title == title) =
      some (updNote c uid a t n0) := by
  have h1 := List.find?_some h0
  have hany : db.notes.any (fun n => n.title == title) = true :=
    List.any_eq_true.mpr ⟨n0, List.mem_of_find?_eq_some h0, h1⟩
  rw [un_update c uid a t hany]
  have hp0 : (n0.title == title) = true := by simpa using h1
  exact find?_updateFirst_self (fun x => x.title == title) (updNote c uid a t) db.notes n0
    (by simpa [updNote] using hp0) h0

theorem un_find_insert {db : DB} {title : String} (c : String) (uid a t : Nat)
    (h : db.notes.any (fun n => n.title == title) = false) :
    (upsertNote db title c uid a t).notes.find? (fun x => x.title == title) =
      some (freshNote title c uid a t db.notes_seq) := by
  rw [un_insert c uid a t h]
  have hnone : db.notes.find? (fun x => x.title == title) = none := by
    rw [List.find?_eq_none]
    intro x hx
    rw [List.any_eq_false] at h
    exact h x hx
  show (db.notes ++ _).find? _ = _
  rw [List.find?_append, hnone, Option.none_or]
  rw [List.find?_cons_of_pos _ (by simp [freshNote])]

theorem un_find_self (db : DB) (title c : String) (uid a t : Nat) :
    ∃ n, (upsertNote db title c uid a t).notes.find? (fun x => x.title == title) = some n ∧
      n.content = c ∧ n.user_id = some uid ∧ n.is_archived = a ∧ n.updated_at = t := by
  cases hany : db.notes.any (fun n => n.title == title) with
  | false => exact ⟨_, un_find_insert c uid a t hany, rfl, rfl, rfl, rfl⟩
  | true =>
    have hs : (db.notes.find? (fun x => x.title == title)).isSome := by
      rw [List.find?_isSome]
      exact List.any_eq_true.mp hany
    obtain ⟨n0, h0⟩ := Option.isSome_iff_exists.mp hs
    exact ⟨_, un_find_update c uid a t h0, rfl, rfl, rfl, rfl⟩

theorem un_find_other {db : DB} {title T2 : String} (c : String) (uid a t : Nat)
    (hne : T2 ≠ title) :
    (upsertNote db title c uid a t).notes.find? (fun x => x.title == T2) =
      db.notes.find? (fun x => x.title == T2) := by
  cases hany : db.notes.any (fun n => n.title == title) with
  | false =>
    rw [un_insert c uid a t hany]
    show (db.notes ++ _).find? _ = _
    rw [List.find?_append]
    rw [List.find?_cons_of_neg _ (by simp [freshNote, Ne.symm hne])]
    rw [List.find?_nil, Option.or_none]
  | true =>
    rw [un_update c uid a t hany]
    show (updateFirst (fun n => n.title == title) (updNote c uid a t) db.notes).find?
      (fun x => x.title == T2) = db.notes.find? (fun x => x.title == T2)
    refine find?_updateFirst_other (fun x => x.title == T2) (fun n => n.title == title)
      (updNote c uid a t) (fun x => rfl) ?_ db.notes
    intro x hx
    have hxt : x.title = title := by simpa using hx
    show (x.title == T2) = false
    rw [hxt]
    exact beq_eq_false_iff_ne.mpr (Ne.symm hne)

theorem un_nodup {db : DB} (title c : String) (uid a t : Nat)
    (h : (db.notes.map NoteRow.title).Nodup) :
    ((upsertNote db title c uid a t).notes.map NoteRow.title).Nodup := by
  cases hany : db.notes.any (fun n => n.title == title) with
  | false =>
    rw [un_insert c uid a t hany]
    show ((db.notes ++ _).map NoteRow.title).Nodup
    rw [List.map_append]
    rw [List.any_eq_false] at hany
    simp only [List.map_cons, List.map_nil]
    rw [List.nodup_append]
    refine ⟨h, by simp, ?_⟩
    intro x hx
    simp only [List.mem_singleton]
    rcases List.mem_map.mp hx with ⟨n, hn, rfl⟩
    have := hany n hn
    simpa [freshNote] using this
  | true =>
    rw [un_update c uid a t hany]
    show ((updateFirst _ _ db.notes).map NoteRow.title).Nodup
    rw [map_updateFirst NoteRow.title (fun n => n.title == title) (updNote c uid a t)
      (fun x => rfl) db.notes]
    exact h

theorem un_keep_core {db : DB} (title c : String) (uid a t : Nat) :
    ∀ n ∈ db.notes, ∃ n2 ∈ (upsertNote db title c uid a t).notes,
      n2.id = n.id ∧ n2.title = n.title ∧ n2.created_at = n.created_at := by
  intro n hn
  cases hany : db.notes.any (fun x => x.title == title) with
  | false =>
    rw [un_insert c uid a t hany]
    exact ⟨n, by simp [hn], rfl, rfl, rfl⟩
  | true =>
    rw [un_update c uid a t hany]
    have hmap := map_updateFirst (fun x : NoteRow => (x.id, x.title, x.created_at))
      (fun x => x.title == title) (updNote c uid a t) (fun x => rfl) db.notes
    have hmem : (n.id, n.title, n.created_at) ∈
        (updateFirst (fun x => x.title == title) (updNote c uid a t) db.notes).map
          (fun x : NoteRow => (x.id, x.title, x.created_at)) := by
      rw [hmap]
      exact List.mem_map_of_mem _ hn
    obtain ⟨n2, hn2, heq⟩ := List.mem_map.mp hmem
    refine ⟨n2, hn2, ?_, ?_, ?_⟩ <;> simp_all

theorem un_keep_nonmatching {db : DB} (title c : String) (uid a t : Nat) :
    ∀ n ∈ db.notes, n.title ≠ title → n ∈ (upsertNote db title c uid a t).notes := by
  intro n hn hne
  cases hany : db.notes.any (fun x => x.title == title) with
  | false =>
    rw [un_insert c uid a t hany]
    simp [hn]
  | true =>
    rw [un_update c uid a t hany]
    exact mem_updateFirst_of_neg _ _ _ _ hn (by simp [hne])

theorem un_length {db : DB} (title c : String) (uid a t : Nat)
    (h : db.notes.any (fun n => n.title == title) = true) :
    (upsertNote db title c uid a t).notes.length = db.notes.length := by
  rw [un_update c uid a t h]
  exact length_updateFirst _ _ _

/-! Generic lemmas about the `_seed_notes` fold. -/

theorem find?_eq_of_nodup_title (l : List NoteRow) (hnd : (l.map NoteRow.title).Nodup)
    (n0 : NoteRow) (hmem : n0 ∈ l) :
    l.find? (fun x => x.title == n0.title) = some n0 := by
  induction l with
  | nil => simp at hmem
  | cons b bs ih =>
    rcases List.mem_cons.mp hmem with rfl | hmem2
    · exact List.find?_cons_of_pos _ (by simp)
    · rw [List.map_cons, List.nodup_cons] at hnd
      have hbne : b.title ≠ n0.title := by
        intro he
        exact hnd.1 (he ▸ List.mem_map_of_mem _ hmem2)
      rw [List.find?_cons_of_neg _ (by simp [hbne])]
      exact ih hnd.2 hmem2

theorem sn_fold_find_other (uid t : Nat) (T : String) :
    ∀ (l : List (String × String × Nat)), (∀ s ∈ l, T ≠ s.1) → ∀ db : DB,
      ((l.foldl (fun d s2 => upsertNote d s2.1 s2.2.1 uid s2.2.2 t) db).notes.find?
        (fun x => x.title == T)) = db.notes.find? (fun x => x.title == T) := by
  intro l
  induction l with
  | nil => intro _ db; rfl
  | cons s0 rest ih =>
    intro h db
    rw [List.foldl_cons]
    rw [ih (fun s hs => h s (List.mem_cons_of_mem _ hs))]
    exact un_find_other _ _ _ _ (h s0 (List.mem_cons_self _ _))

theorem sn_fold_establish (uid t : Nat) :
    ∀ (l : List (String × String × Nat)), (l.map Prod.fst).Nodup → ∀ db : DB, ∀ s ∈ l,
      ∃ n, ((l.foldl (fun d s2 => upsertNote d s2.1 s2.2.1 uid s2.2.2 t) db).notes.find?
          (fun x => x.title == s.1)) = some n ∧
        n.content = s.2.1 ∧ n.user_id = some uid ∧ n.is_archived = s.2.2 ∧ n.updated_at = t := by
  intro l
  induction l with
  | nil => intro _ db s hs; simp at hs
  | cons s0 rest ih =>
    intro hnd db s hs
    rw [List.foldl_cons]
    rw [List.map_cons, List.nodup_cons] at hnd
    rcases List.mem_cons.mp hs with rfl | hmem
    · obtain ⟨n, hfind, hc, hu, ha, hup⟩ := un_find_self db s.1 s.2.1 uid s.2.2 t
      refine ⟨n, ?_, hc, hu, ha, hup⟩
      rw [sn_fold_find_other uid t s.1 rest ?_ _]
      · exact hfind
      · intro s2 hs2 heq
        exact hnd.1 (heq ▸ List.mem_map_of_mem _ hs2)
    · exact ih hnd.2 _ s hmem

theorem sn_fold_find_updated (uid t : Nat) :
    ∀ (l : List (String × String × Nat)), (l.map Prod.fst).Nodup → ∀ db : DB, ∀ s ∈ l,
      ∀ n0, db.notes.find? (fun x => x.title == s.1) = some n0 →
      ((l.foldl (fun d s2 => upsertNote d s2.1 s2.2.1 uid s2.2.2 t) db).notes.find?
        (fun x => x.title == s.1)) = some (updNote s.2.1 uid s.2.2 t n0) := by
  intro l
  induction l with
  | nil => intro _ db s hs; simp at hs
  | cons s0 rest ih =>
    intro hnd db s hs n0 h0
    rw [List.foldl_cons]
    rw [List.map_cons, List.nodup_cons] at hnd
    rcases List.mem_cons.mp hs with rfl | hmem
    · rw [sn_fold_find_other uid t s.1 rest ?_ _]
      · exact un_find_update _ _ _ _ h0
      · intro s2 hs2 heq
        exact hnd.1 (heq ▸ List.mem_map_of_mem _ hs2)
    · have hne : s.1 ≠ s0.1 := by
        intro he
        exact hnd.1 (he ▸ List.mem_map_of_mem _ hmem)
      refine ih hnd.2 _ s hmem n0 ?_
      rw [un_find_other _ _ _ _ hne]
      exact h0

theorem sn_fold_core_map (uid t : Nat) :
    ∀ (l : List (String × String × Nat)), (l.map Prod.fst).Nodup → ∀ db : DB,
      (∀ s ∈ l, ∃ n, db.notes.find? (fun x => x.title == s.1) = some n ∧
        n.content = s.2.1 ∧ n.user_id = some uid ∧ n.is_archived = s.2.2) →
      ((l.foldl (fun d s2 => upsertNote d s2.1 s2.2.1 uid s2.2.2 t) db).notes.map noteCore) =
        db.notes.map noteCore := by
  intro l
  induction l with
  | nil => intro _ db _; rfl
  | cons s0 rest ih =>
    intro hnd db h
    rw [List.foldl_cons]
    rw [List.map_cons, List.nodup_cons] at hnd
    obtain ⟨n0, hf0, hc, hu, ha⟩ := h s0 (List.mem_cons_self _ _)
    have h1 := List.find?_some hf0
    have hany : db.notes.any (fun n => n.title == s0.1) = true :=
      List.any_eq_true.mpr ⟨n0, List.mem_of_find?_eq_some hf0, h1⟩
    have hstep : (upsertNote db s0.1 s0.2.1 uid s0.2.2 t).notes.map noteCore =
        db.notes.map noteCore := by
      rw [un_update _ _ _ _ hany]
      refine map_updateFirst_find? noteCore (fun x => x.title == s0.1)
        (updNote s0.2.1 uid s0.2.2 t) db.notes n0 hf0 ?_
      simp [noteCore, updNote, hc, hu, ha]
    rw [ih hnd.2 _ ?_, hstep]
    intro s hs
    obtain ⟨n, hfn, hcn, hun, han⟩ := h s (List.mem_cons_of_mem _ hs)
    have hne : s.1 ≠ s0.1 := by
      intro he
      exact hnd.1 (he ▸ List.mem_map_of_mem _ hs)
    refine ⟨n, ?_, hcn, hun, han⟩
    rw [un_find_other _ _ _ _ hne]
    exact hfn

theorem sn_fold_notes_eq (uid t : Nat) :
    ∀ (l : List (String × String × Nat)), (l.map Prod.fst).Nodup → ∀ db : DB,
      (∀ s ∈ l, ∃ n, db.notes.find? (fun x => x.title == s.1) = some n ∧
        n.content = s.2.1 ∧ n.user_id = some uid ∧ n.is_archived = s.2.2) →
      (l.foldl (fun d s2 => upsertNote d s2.1 s2.2.1 uid s2.2.2 t) db).notes =
        l.foldl (fun ln s2 => updateFirst (fun n => n.title == s2.1) (fun n => { n with updated_at := t }) ln) db.notes := by
  intro l
  induction l with
  | nil => intro _ db _; rfl
  | cons s0 rest ih =>
    intro hnd db h
    rw [List.foldl_cons, List.foldl_cons]
    rw [List.map_cons, List.nodup_cons] at hnd
    obtain ⟨n0, hf0, hc, hu, ha⟩ := h s0 (List.mem_cons_self _ _)
    have h1 := List.find?_some hf0
    have hany : db.notes.any (fun n => n.title == s0.1) = true :=
      List.any_eq_true.mpr ⟨n0, List.mem_of_find?_eq_some hf0, h1⟩
    have hone : updNote s0.2.1 uid s0.2.2 t n0 = { n0 with updated_at := t } := by
      unfold updNote
      rw [← hc, ← hu, ← ha]
    have hstep : (upsertNote db s0.1 s0.2.1 uid s0.2.2 t).notes =
        updateFirst (fun n => n.title == s0.1) (fun n => { n with updated_at := t }) db.notes := by
      rw [un_update _ _ _ _ hany]
      exact updateFirst_congr_find? (fun n => n.title == s0.1)
        (updNote s0.2.1 uid s0.2.2 t) (fun n => { n with updated_at := t }) db.notes n0 hf0 hone
    have hrest : ∀ s ∈ rest, ∃ n,
        (upsertNote db s0.1 s0.2.1 uid s0.2.2 t).notes.find? (fun x => x.title == s.1) = some n ∧
        n.content = s.2.1 ∧ n.user_id = some uid ∧ n.is_archived = s.2.2 := by
      intro s hs
      obtain ⟨n, hfn, hcn, hun, han⟩ := h s (List.mem_cons_of_mem _ hs)
      have hne : s.1 ≠ s0.1 := by
        intro he
        exact hnd.1 (he ▸ List.mem_map_of_mem _ hs)
      refine ⟨n, ?_, hcn, hun, han⟩
      rw [un_find_other _ _ _ _ hne]
      exact hfn
    rw [ih hnd.2 _ hrest, hstep]

theorem sn_fold_nodup (uid t : Nat) :
    ∀ (l : List (String × String × Nat)), ∀ db : DB, (db.notes.map NoteRow.title).Nodup →
      (((l.foldl (fun d s2 => upsertNote d s2.1 s2.2.1 uid s2.2.2 t) db).notes).map NoteRow.title).Nodup := by
  intro l
  induction l with
  | nil => intro db h; exact h
  | cons s0 rest ih =>
    intro db h
    rw [List.foldl_cons]
    exact ih _ (un_nodup _ _ _ _ _ h)

theorem sn_fold_keep_core (uid t : Nat) :
    ∀ (l : List (String × String × Nat)), ∀ db : DB, ∀ n ∈ db.notes,
      ∃ n2 ∈ (l.foldl (fun d s2 => upsertNote d s2.1 s2.2.1 uid s2.2.2 t) db).notes,
        n2.id = n.id ∧ n2.title = n.title ∧ n2.created_at = n.created_at := by
  intro l
  induction l with
  | nil => intro db n hn; exact ⟨n, hn, rfl, rfl, rfl⟩
  | cons s0 rest ih =>
    intro db n hn
    rw [List.foldl_cons]
    obtain ⟨n1, hn1, e1, e2, e3⟩ := un_keep_core s0.1 s0.2.1 uid s0.2.2 t n hn
    obtain ⟨n2, hn2, f1, f2, f3⟩ := ih _ n1 hn1
    exact ⟨n2, hn2, by rw [f1, e1], by rw [f2, e2], by rw [f3, e3]⟩

theorem sn_fold_keep_nonmatching (uid t : Nat) :
    ∀ (l : List (String × String × Nat)), ∀ db : DB, ∀ n ∈ db.notes,
      (∀ s ∈ l, n.title ≠ s.1) →
      n ∈ (l.foldl (fun d s2 => upsertNote d s2.1 s2.2.1 uid s2.2.2 t) db).notes := by
  intro l
  induction l with
  | nil => intro db n hn _; exact hn
  | cons s0 rest ih =>
    intro db n hn h
    rw [List.foldl_cons]
    refine ih _ n ?_ (fun s hs => h s (List.mem_cons_of_mem _ hs))
    exact un_keep_nonmatching _ _ _ _ _ n hn (h s0 (List.mem_cons_self _ _))

/-! Lemmas about note-tag association seeding. -/

theorem int_present (db : DB) (ni ti t : Nat) :
    (insertNoteTagIfAbsent db ni ti t).note_tags.any
      (fun nt => nt.note_id == ni && nt.tag_id == ti) = true := by
  unfold insertNoteTagIfAbsent
  split
  · assumption
  · simp

theorem int_any_mono {db : DB} {q : NoteTagRow → Bool} (ni ti t : Nat)
    (h : db.note_tags.any q = true) :
    (insertNoteTagIfAbsent db ni ti t).note_tags.any q = true := by
  unfold insertNoteTagIfAbsent
  split
  · exact h
  · simp only [List.any_append, h, Bool.true_or]

theorem int_noop {db : DB} {ni ti : Nat} (t : Nat)
    (h : db.note_tags.any (fun nt => nt.note_id == ni && nt.tag_id == ti) = true) :
    insertNoteTagIfAbsent db ni ti t = db := by
  unfold insertNoteTagIfAbsent
  rw [if_pos h]

theorem lp_any_mono (l : List String) : ∀ (db : DB) (ni t : Nat) (q : NoteTagRow → Bool),
    db.note_tags.any q = true → (seed_note_tags_loop db ni t l).note_tags.any q = true := by
  induction l with
  | nil => intro db ni t q h; exact h
  | cons tn rest ih =>
    intro db ni t q h
    rw [seed_note_tags_loop]
    split
    · exact ih _ _ _ _ h
    · exact ih _ _ _ _ (int_any_mono _ _ _ h)

theorem lp_establish (l : List String) : ∀ (db : DB) (ni t : Nat), ∀ tn ∈ l, ∀ trow,
    db.tags.find? (fun x => x.name == tn) = some trow →
    (seed_note_tags_loop db ni t l).note_tags.any
      (fun nt => nt.note_id == ni && nt.tag_id == trow.id) = true := by
  induction l with
  | nil => intro db ni t tn htn; simp at htn
  | cons tn0 rest ih =>
    intro db ni t tn htn trow hfind
    rw [seed_note_tags_loop]
    rcases List.mem_cons.mp htn with rfl | hmem
    · rw [hfind]
      exact lp_any_mono rest _ _ _ _ (int_present _ _ _ _)
    · cases hf : db.tags.find? (fun x => x.name == tn0) with
      | none =>
        exact ih _ _ _ tn hmem trow hfind
      | some trow0 =>
        refine ih _ _ _ tn hmem trow ?_
        rw [int_tags]
        exact hfind

theorem lp_noop (l : List String) : ∀ (db : DB) (ni t : Nat),
    (∀ tn ∈ l, ∀ trow, db.tags.find? (fun x => x.name == tn) = some trow →
      db.note_tags.any (fun nt => nt.note_id == ni && nt.tag_id == trow.id) = true) →
    seed_note_tags_loop db ni t l = db := by
  induction l with
  | nil => intro db ni t _; rfl
  | cons tn0 rest ih =>
    intro db ni t h
    rw [seed_note_tags_loop]
    cases hf : db.tags.find? (fun x => x.name == tn0) with
    | none =>
      exact ih _ _ _ (fun tn htn => h tn (List.mem_cons_of_mem _ htn))
    | some trow0 =>
      show seed_note_tags_loop (insertNoteTagIfAbsent db ni trow0.id t) ni t rest = db
      rw [int_noop _ (h tn0 (List.mem_cons_self _ _) trow0 hf)]
      exact ih _ _ _ (fun tn htn => h tn (List.mem_cons_of_mem _ htn))

theorem stp_any_mono {db : DB} {q : NoteTagRow → Bool} (m : String × List String) (t : Nat)
    (h : db.note_tags.any q = true) :
    (seed_note_tags_step db m t).note_tags.any q = true := by
  unfold seed_note_tags_step
  split
  · exact h
  · exact lp_any_mono _ _ _ _ _ h

theorem snt_fold_any_mono (ml : List (String × List String)) :
    ∀ (db : DB) (t : Nat) (q : NoteTagRow → Bool), db.note_tags.any q = true →
    ((ml.foldl (fun d mm => seed_note_tags_step d mm t) db).note_tags.any q) = true := by
  induction ml with
  | nil => intro db t q h; exact h
  | cons m0 rest ih =>
    intro db t q h
    rw [List.foldl_cons]
    exact ih _ _ _ (stp_any_mono _ _ h)

theorem snt_fold_establish (ml : List (String × List String)) :
    ∀ (db : DB) (t : Nat), ∀ m ∈ ml, ∀ tn ∈ m.2, ∀ nrow trow,
      db.notes.find? (fun x => x.title == m.1) = some nrow →
      db.tags.find? (fun x => x.name == tn) = some trow →
      ((ml.foldl (fun d mm => seed_note_tags_step d mm t) db).note_tags.any
        (fun nt => nt.note_id == nrow.id && nt.tag_id == trow.id)) = true := by
  induction ml with
  | nil => intro db t m hm; simp at hm
  | cons m0 rest ih =>
    intro db t m hm tn htn nrow trow hfn hft
    rw [List.foldl_cons]
    rcases List.mem_cons.mp hm with rfl | hmem
    · have hstep : (seed_note_tags_step db m t).note_tags.any
          (fun nt => nt.note_id == nrow.id && nt.tag_id == trow.id) = true := by
        unfold seed_note_tags_step
        rw [hfn]
        exact lp_establish m.2 db nrow.id t tn htn trow hft
      exact snt_fold_any_mono rest _ t _ hstep
    · refine ih _ t m hmem tn htn nrow trow ?_ ?_
      · rw [stp_notes]
        exact hfn
      · rw [stp_tags]
        exact hft

theorem snt_fold_noop (ml : List (String × List String)) :
    ∀ (db : DB) (t : Nat),
      (∀ m ∈ ml, ∀ nrow, db.notes.find? (fun x => x.title == m.1) = some nrow →
        ∀ tn ∈ m.2, ∀ trow, db.tags.find? (fun x => x.name == tn) = some trow →
        db.note_tags.any (fun nt => nt.note_id == nrow.id && nt.tag_id == trow.id) = true) →
      ml.foldl (fun d mm => seed_note_tags_step d mm t) db = db := by
  induction ml with
  | nil => intro db t _; rfl
  | cons m0 rest ih =>
    intro db t h
    rw [List.foldl_cons]
    have hstep : seed_note_tags_step db m0 t = db := by
      unfold seed_note_tags_step
      cases hf : db.notes.find? (fun x => x.title == m0.1) with
      | none => rfl
      | some nrow =>
        exact lp_noop m0.2 db nrow.id t (h m0 (List.mem_cons_self _ _) nrow hf)
    rw [hstep]
    exact ih _ _ (fun m hm => h m (List.mem_cons_of_mem _ hm))

/-! Run-level lemmas. -/

theorem sn_unfold (db : DB) (uid t : Nat) :
    _seed_notes db uid t =
      noteSeed.foldl (fun d s2 => upsertNote d s2.1 s2.2.1 uid s2.2.2 t) db := rfl

theorem snt_unfold (db : DB) (t : Nat) :
    _seed_note_tags db t =
      noteTagSeed.foldl (fun d mm => seed_note_tags_step d mm t) db := rfl

theorem run_decomp {db : DB} {t : Nat} {d : DB} (h : run db t = some d) :
    ∃ s db3 uid,
      schema_phase db = some s ∧
      _ensure_seed_user (_upsert_app_info s t) t = (db3, some uid) ∧
      d = _seed_note_tags (_seed_notes (_seed_tags db3 t) uid t) t := by
  unfold run at h
  cases hs : schema_phase db with
  | none =>
    rw [hs] at h
    exact absurd h (by simp)
  | some s =>
    rw [hs] at h
    rw [Option.some_bind] at h
    cases he : _ensure_seed_user (_upsert_app_info s t) t with
    | mk db3 r =>
      rw [he] at h
      cases r with
      | none => simp at h
      | some uid =>
        refine ⟨s, db3, uid, rfl, he, ?_⟩
        exact (Option.some.inj h).symm

theorem run_establish {db : DB} {t : Nat} {d : DB} (h : run db t = some d) : Provisioned d := by
  obtain ⟨s, db3, uid, hs, he, hd⟩ := run_decomp h
  have hspec := schema_phase_spec db s hs
  have huq3 : db3.uq_notes_title = true := by
    have h1 : ((_ensure_seed_user (_upsert_app_info s t) t).1).uq_notes_title =
        (_upsert_app_info s t).uq_notes_title := eu_uq _ _
    rw [he] at h1
    rw [h1, ua_uq]
    exact hspec.2.2.2.2.2.2.2.2.2.1
  have husers3 : db3.users = ((_ensure_seed_user (_upsert_app_info s t) t).1).users := by
    rw [he]
  have hsnd : (_ensure_seed_user (_upsert_app_info s t) t).2 = some uid := by
    rw [he]
  obtain ⟨u, hufind, huid⟩ := eu_demo_found hsnd
  refine ⟨?_, ⟨uid, ?_, ?_⟩, ?_, ?_⟩
  · -- unique index flag
    rw [hd, snt_uq, sn_uq, st_uq]
    exact huq3
  · -- demo user lookup
    have hu3 : db3.users.find? (fun x => x.username == "demo") = some u := by
      rw [husers3]
      exact hufind
    have : d.users = db3.users := by rw [hd, snt_users, sn_users, st_users]
    rw [this, hu3]
    simp [huid]
  · -- seed notes present with seed fields
    intro s2 hs2
    have hest := sn_fold_establish uid t noteSeed (by decide) (_seed_tags db3 t) s2 hs2
    obtain ⟨n, hfind, hc, hu2, ha, _⟩ := hest
    refine ⟨n, ?_, hc, hu2, ha⟩
    rw [hd, snt_notes, sn_unfold]
    exact hfind
  · -- seed tags present
    intro p hp
    have : d.tags = (_seed_tags db3 t).tags := by rw [hd, snt_tags, sn_tags]
    rw [this]
    exact st_present db3 t p hp
  · -- associations present
    intro m hm tn htn nrow trow hfn hft
    have hnotes_eq : d.notes = (_seed_notes (_seed_tags db3 t) uid t).notes := by
      rw [hd, snt_notes]
    have htags_eq : d.tags = (_seed_notes (_seed_tags db3 t) uid t).tags := by
      rw [hd, snt_tags]
    rw [hnotes_eq] at hfn
    rw [htags_eq] at hft
    rw [hd, snt_unfold]
    exact snt_fold_establish noteTagSeed _ t m hm tn htn nrow trow hfn hft

theorem noteTag_titles_subset : ∀ m ∈ noteTagSeed, ∃ sm ∈ noteSeed, sm.1 = m.1 := by decide

theorem run_of_provisioned (d1 : DB) (t2 : Nat) (hp : Provisioned d1) :
    ∃ d2, run d1 t2 = some d2 ∧
      d2.users = d1.users ∧ d2.tags = d1.tags ∧ d2.note_tags = d1.note_tags ∧
      d2.notes.map noteCore = d1.notes.map noteCore ∧
      d2.app_info = d1.app_info.filter notSeedAppKey ++ appBlock d1.app_info_seq t2 ∧
      d2.notes = noteSeed.foldl
        (fun ln s2 => updateFirst (fun n => n.title == s2.1) (fun n => { n with updated_at := t2 }) ln)
        d1.notes := by
  obtain ⟨huq, ⟨uid, hdemo, hnotes⟩, htags, hassoc⟩ := hp
  obtain ⟨s1, hs1⟩ : ∃ s1, schema_phase d1 = some s1 := ⟨_, schema_phase_of_uq d1 huq⟩
  have hspec := schema_phase_spec d1 s1 hs1
  obtain ⟨hsa, hsu, hsn, hst1, hsnt1, hsaq, _, _, _, _, _⟩ := hspec
  have hbu : (_upsert_app_info s1 t2).users = d1.users := by rw [ua_users, hsu]
  have hbt : (_upsert_app_info s1 t2).tags = d1.tags := by rw [ua_tags, hst1]
  have hbn : (_upsert_app_info s1 t2).notes = d1.notes := by rw [ua_notes, hsn]
  have hbnt : (_upsert_app_info s1 t2).note_tags = d1.note_tags := by rw [ua_note_tags, hsnt1]
  obtain ⟨u0, hu0f, hu0id⟩ := Option.map_eq_some'.mp hdemo
  have hany : (_upsert_app_info s1 t2).users.any (fun u => u.username == "demo") = true := by
    rw [hbu]
    have hq := List.find?_some hu0f
    exact List.any_eq_true.mpr ⟨u0, List.mem_of_find?_eq_some hu0f, hq⟩
  have he := @eu_of_demo (_upsert_app_info s1 t2) t2 hany
  have hsnd : ((_upsert_app_info s1 t2).users.find? (fun u => u.username == "demo")).map
      UserRow.id = some uid := by
    rw [hbu]
    exact hdemo
  have heq : _ensure_seed_user (_upsert_app_info s1 t2) t2 = (_upsert_app_info s1 t2, some uid) := by
    rw [he, hsnd]
  have hst : _seed_tags (_upsert_app_info s1 t2) t2 = _upsert_app_info s1 t2 := by
    refine st_noop t2 ?_
    intro p hp2
    rw [hbt]
    exact htags p hp2
  have hnotes_b : ∀ s2 ∈ noteSeed, ∃ n,
      (_upsert_app_info s1 t2).notes.find? (fun x => x.title == s2.1) = some n ∧
      n.content = s2.2.1 ∧ n.user_id = some uid ∧ n.is_archived = s2.2.2 := by
    intro s2 hs2
    obtain ⟨n, hf, hc, hu, ha⟩ := hnotes s2 hs2
    exact ⟨n, by rw [hbn]; exact hf, hc, hu, ha⟩
  have hcore : (_seed_notes (_upsert_app_info s1 t2) uid t2).notes.map noteCore =
      d1.notes.map noteCore := by
    rw [sn_unfold]
    rw [sn_fold_core_map uid t2 noteSeed (by decide) _ hnotes_b]
    rw [hbn]
  have hd5tags : (_seed_notes (_upsert_app_info s1 t2) uid t2).tags = d1.tags := by
    rw [sn_tags, hbt]
  have hd5nt : (_seed_notes (_upsert_app_info s1 t2) uid t2).note_tags = d1.note_tags := by
    rw [sn_note_tags, hbnt]
  have hsnt : _seed_note_tags (_seed_notes (_upsert_app_info s1 t2) uid t2) t2 =
      _seed_notes (_upsert_app_info s1 t2) uid t2 := by
    rw [snt_unfold]
    refine snt_fold_noop noteTagSeed _ t2 ?_
    intro m hm nrow hnr tn htn trow hft
    obtain ⟨sm, hsm, hsm1⟩ := noteTag_titles_subset m hm
    obtain ⟨n0, hf0, hc0, hu0, ha0⟩ := hnotes sm hsm
    have hf0b : (_upsert_app_info s1 t2).notes.find? (fun x => x.title == sm.1) = some n0 := by
      rw [hbn]
      exact hf0
    have hupd := sn_fold_find_updated uid t2 noteSeed (by decide) _ sm hsm n0 hf0b
    rw [← sn_unfold] at hupd
    rw [hsm1] at hupd
    have hnrow : nrow = updNote sm.2.1 uid sm.2.2 t2 n0 := Option.some.inj (hnr.symm.trans hupd)
    have hnid : nrow.id = n0.id := by rw [hnrow]; rfl
    have hftd1 : d1.tags.find? (fun x => x.name == tn) = some trow := by
      rw [← hd5tags]
      exact hft
    have hfnd1 : d1.notes.find? (fun x => x.title == m.1) = some n0 := by
      rw [← hsm1]
      exact hf0
    have hpair := hassoc m hm tn htn n0 trow hfnd1 hftd1
    rw [hd5nt, hnid]
    exact hpair
  have hrun : run d1 t2 =
      some (_seed_note_tags (_seed_notes (_upsert_app_info s1 t2) uid t2) t2) := by
    unfold run
    rw [hs1]
    simp only [Option.some_bind]
    rw [heq]
    show some (_seed_note_tags (_seed_notes (_seed_tags (_upsert_app_info s1 t2) t2) uid t2) t2) = _
    rw [hst]
  refine ⟨_, hrun, ?_, ?_, ?_, ?_, ?_, ?_⟩
  · rw [snt_users, sn_users, hbu]
  · rw [snt_tags, hd5tags]
  · rw [hsnt, hd5nt]
  · rw [snt_notes, hcore]
  · rw [snt_app_info, sn_app_info, ua_app_spec, hsa]
    have hseq : s1.app_info_seq = d1.app_info_seq := by
      have := schema_phase_spec d1 s1 hs1
      exact this.2.2.2.2.2.1
    rw [hseq]
  · rw [snt_notes, sn_unfold]
    rw [sn_fold_notes_eq uid t2 noteSeed (by decide) _ hnotes_b]
    rw [hbn]

/-! Remaining helper lemmas for the claims. -/

theorem filter_nk_idem (l : List AppInfoRow) :
    (l.filter notSeedAppKey).filter notSeedAppKey = l.filter notSeedAppKey := by
  rw [List.filter_filter]
  refine List.filter_congr ?_
  intro a _
  rw [Bool.and_self]

theorem appBlock_filter_nil (i t : Nat) : (appBlock i t).filter notSeedAppKey = [] := rfl

theorem appBlock_kv (i t : Nat) :
    (appBlock i t).map appKV =
      [("project_name", "notes_database"), ("version", "0.2.0"), ("author", "John Doe"),
       ("description", "SQLite database for the Notemaster notes app (notes, tags, note_tags)")] := rfl

theorem appBlock_length (i t : Nat) : (appBlock i t).length = 4 := rfl

theorem countP_title_eq_one (l : List NoteRow) (T : String)
    (hnd : (l.map NoteRow.title).Nodup) (hmem : ∃ n ∈ l, n.title = T) :
    l.countP (fun n => n.title == T) = 1 := by
  obtain ⟨n, hn, hnt⟩ := hmem
  have hTmem : T ∈ l.map NoteRow.title := hnt ▸ List.mem_map_of_mem _ hn
  have hcount := List.count_eq_one_of_mem hnd hTmem
  rw [← hcount]
  rw [List.count, List.countP_map]
  rfl

theorem lp_preserves_ri (l : List String) : ∀ (db : DB) (ni t : Nat),
    refIntegrity db → (∃ n ∈ db.notes, n.id = ni) →
    refIntegrity (seed_note_tags_loop db ni t l) := by
  induction l with
  | nil => intro db ni t h _; exact h
  | cons tn rest ih =>
    intro db ni t h hn
    rw [seed_note_tags_loop]
    cases hf : db.tags.find? (fun x => x.name == tn) with
    | none => exact ih _ _ _ h hn
    | some trow =>
      refine ih _ _ _ ?_ ?_
      · intro nt hnt
        have hnt2 : nt ∈ (insertNoteTagIfAbsent db ni trow.id t).note_tags := hnt
        rw [int_notes, int_tags]
        cases hc : db.note_tags.any (fun x => x.note_id == ni && x.tag_id == trow.id) with
        | true =>
          rw [int_noop _ hc] at hnt2
          exact h nt hnt2
        | false =>
          have hins : (insertNoteTagIfAbsent db ni trow.id t).note_tags =
              db.note_tags ++ [{ note_id := ni, tag_id := trow.id, created_at := t }] := by
            unfold insertNoteTagIfAbsent
            rw [if_neg (by simp [hc])]
          rw [hins] at hnt2
          rcases List.mem_append.mp hnt2 with hold | hnew
          · exact h nt hold
          · rw [List.mem_singleton] at hnew
            subst hnew
            refine ⟨?_, ?_⟩
            · obtain ⟨n, hmem, hid⟩ := hn
              exact ⟨n, hmem, hid⟩
            · exact ⟨trow, List.mem_of_find?_eq_some hf, rfl⟩
      · show ∃ n ∈ (insertNoteTagIfAbsent db ni trow.id t).notes, n.id = ni
        rw [int_notes]
        exact hn

theorem stp_preserves_ri {db : DB} (m : String × List String) (t : Nat)
    (h : refIntegrity db) : refIntegrity (seed_note_tags_step db m t) := by
  unfold seed_note_tags_step
  cases hf : db.notes.find? (fun x => x.title == m.1) with
  | none => exact h
  | some nrow =>
    exact lp_preserves_ri m.2 db nrow.id t h ⟨nrow, List.mem_of_find?_eq_some hf, rfl⟩

theorem snt_fold_preserves_ri (ml : List (String × List String)) :
    ∀ (db : DB) (t : Nat), refIntegrity db →
    refIntegrity (ml.foldl (fun d mm => seed_note_tags_step d mm t) db) := by
  induction ml with
  | nil => intro db t h; exact h
  | cons m0 rest ih =>
    intro db t h
    rw [List.foldl_cons]
    exact ih _ _ (stp_preserves_ri m0 t h)

theorem run_preserves_ri {db : DB} {t : Nat} {d : DB} (h : run db t = some d)
    (h0 : refIntegrity db) : refIntegrity d := by
  obtain ⟨s1, db3, uid, hs, he, hd⟩ := run_decomp h
  have hspec := schema_phase_spec db s1 hs
  have hnotes3 : db3.notes = db.notes := by
    have h1 : ((_ensure_seed_user (_upsert_app_info s1 t) t).1).notes = s1.notes := by
      rw [eu_notes, ua_notes]
    rw [he] at h1
    rw [h1]
    exact hspec.2.2.1
  have htags3 : db3.tags = db.tags := by
    have h1 : ((_ensure_seed_user (_upsert_app_info s1 t) t).1).tags = s1.tags := by
      rw [eu_tags, ua_tags]
    rw [he] at h1
    rw [h1]
    exact hspec.2.2.2.1
  have hnt3 : db3.note_tags = db.note_tags := by
    have h1 : ((_ensure_seed_user (_upsert_app_info s1 t) t).1).note_tags = s1.note_tags := by
      rw [eu_note_tags, ua_note_tags]
    rw [he] at h1
    rw [h1]
    exact hspec.2.2.2.2.1
  -- referential integrity after seeding tags
  have hri4 : refIntegrity (_seed_tags db3 t) := by
    intro nt hnt
    rw [st_note_tags, hnt3] at hnt
    obtain ⟨⟨n, hn, hid⟩, ⟨tg, htg, htid⟩⟩ := h0 nt hnt
    refine ⟨⟨n, ?_, hid⟩, ⟨tg, ?_, htid⟩⟩
    · rw [st_notes, hnotes3]
      exact hn
    · obtain ⟨sfx, he2, _⟩ := st_append db3 t
      rw [he2]
      rw [htags3]
      exact List.mem_append_left _ htg
  -- referential integrity after seeding notes
  have hri5 : refIntegrity (_seed_notes (_seed_tags db3 t) uid t) := by
    intro nt hnt
    rw [sn_note_tags] at hnt
    obtain ⟨⟨n, hn, hid⟩, ⟨tg, htg, htid⟩⟩ := hri4 nt hnt
    refine ⟨?_, ⟨tg, ?_, htid⟩⟩
    · rw [sn_unfold]
      obtain ⟨n2, hn2, e1, _, _⟩ := sn_fold_keep_core uid t noteSeed _ n hn
      exact ⟨n2, hn2, by rw [e1, hid]⟩
    · rw [sn_tags]
      exact htg
  rw [hd, snt_unfold]
  exact snt_fold_preserves_ri noteTagSeed _ t hri5


/-- One run on a fresh empty store, computed stage by stage. -/
theorem run_empty_eq (t : Nat) : run emptyDB t = some (provisionedEmpty t) := by
  have e0 : schema_phase emptyDB = some dbAllTrue := rfl
  have e1 : _upsert_app_info dbAllTrue t = S1 t := rfl
  have e2 : _ensure_seed_user (S1 t) t = (S2 t, some 1) := rfl
  have e3 : _seed_tags (S2 t) t = S3 t := rfl
  have e4 : _seed_notes (S3 t) 1 t = S4 t := rfl
  have f1 : seed_note_tags_step (S4 t) ("Welcome to Notemaster", ["ideas", "personal"]) t = N1 t := rfl
  have f2 : seed_note_tags_step (N1 t) ("Retro checklist", ["work", "urgent"]) t = N2 t := rfl
  have f3 : seed_note_tags_step (N2 t) ("Meeting notes (sample)", ["work"]) t = N3 t := rfl
  have f4 : seed_note_tags_step (N3 t) ("Archived example", ["personal"]) t = provisionedEmpty t := rfl
  have e5 : _seed_note_tags (S4 t) t = provisionedEmpty t := by
    rw [snt_unfold]
    simp only [noteTagSeed, List.foldl_cons, List.foldl_nil]
    rw [f1, f2, f3, f4]
  unfold run
  rw [e0]
  simp only [Option.some_bind]
  rw [e1, e2]
  show some (_seed_note_tags (_seed_notes (_seed_tags (S2 t) t) 1 t) t) = _
  rw [e3, e4, e5]

/-! The claims. -/

/-- C3: starting from a fresh empty store, one run of the provisioner produces
exactly 4 notes, exactly 4 tags, at least 5 note-tag associations, and an
app_info row with key version whose value is 0.2.0. -/
theorem C3_fresh_run_counts (t : Nat) :
    ∃ d, run emptyDB t = some d ∧
      d.notes.length = 4 ∧ d.tags.length = 4 ∧ 5 ≤ d.note_tags.length ∧
      ∃ r ∈ d.app_info, r.key = "version" ∧ r.value = "0.2.0" := by
  have h6 : (provisionedEmpty t).note_tags.length = 6 := rfl
  refine ⟨provisionedEmpty t, run_empty_eq t, rfl, rfl, by omega, ?_⟩
  refine ⟨{ id := 2, key := "version", value := "0.2.0", created_at := t }, ?_, rfl, rfl⟩
  show _ ∈ appBlock 1 t
  simp [appBlock]

/-- C5: for every tag name in the fixed seed list, the seeder inserts a tag
only if no tag with that name exists, and leaves every already-existing tag
row (including a manually edited color) entirely unmodified: the resulting
tags table is the old table, byte for byte, followed only by rows whose seed
name was previously absent. -/
theorem C5_seed_tags_insert_only_if_absent (db : DB) (now : Nat) :
    ∃ s, (_seed_tags db now).tags = db.tags ++ s ∧
      (∀ t0 ∈ db.tags, t0 ∈ (_seed_tags db now).tags) ∧
      ∀ r ∈ s, (∀ t0 ∈ db.tags, t0.name ≠ r.name) ∧ r.name ∈ tagSeed.map Prod.fst := by
  obtain ⟨s, hs, hprop⟩ := st_append db now
  refine ⟨s, hs, ?_, hprop⟩
  intro t0 ht0
  rw [hs]
  exact List.mem_append_left _ ht0

/-- C4 counterexample: against a users table owning the seed email under a
different username, the ensure-seed-user operation does not return a user id:
the INSERT OR IGNORE is ignored because of the email uniqueness conflict, the
SELECT by username finds no row, and `int(row[0])` raises (modelled by the
second component being none instead of an id). -/
theorem C4_counterexample : (_ensure_seed_user badUsersDB 0).2 = none := by decide

/-- C4 (amended): the ensure-seed-user operation never errors when a user with
username demo already exists, never creates a second user with that username,
preserves every existing user row, and returns the id of a demo user —
provided no other username already owns the email demo@example.com (in that
remaining case the operation raises instead of returning an id, as the
counterexample shows). -/
theorem C4_ensure_seed_user_amended (db : DB) (now : Nat)
    (h : (∃ u ∈ db.users, u.username = "demo") ∨ (∀ u ∈ db.users, u.email ≠ "demo@example.com")) :
    ∃ db2 uid, _ensure_seed_user db now = (db2, some uid) ∧
      (∃ u ∈ db2.users, u.username = "demo" ∧ u.id = uid) ∧
      db2.users.countP (fun u => u.username == "demo") =
        max (db.users.countP (fun u => u.username == "demo")) 1 ∧
      (∀ u ∈ db.users, u ∈ db2.users) ∧
      ((∃ u ∈ db.users, u.username = "demo") → db2 = db) := by
  cases hc : db.users.any (fun u => u.username == "demo" || u.email == "demo@example.com") with
  | true =>
    have hdemo : ∃ u ∈ db.users, u.username = "demo" := by
      obtain ⟨u, hu, hdisj⟩ := List.any_eq_true.mp hc
      have hdisj2 : u.username = "demo" ∨ u.email = "demo@example.com" := by simpa using hdisj
      rcases hdisj2 with h1 | h2
      · exact ⟨u, hu, h1⟩
      · rcases h with hl | hr
        · exact hl
        · exact absurd h2 (hr u hu)
    obtain ⟨u0, hu0, hu0n⟩ := hdemo
    have hfs : (db.users.find? (fun u => u.username == "demo")).isSome := by
      rw [List.find?_isSome]
      exact ⟨u0, hu0, by simp [hu0n]⟩
    obtain ⟨u1, hu1⟩ := Option.isSome_iff_exists.mp hfs
    have heq : _ensure_seed_user db now = (db, some u1.id) := by
      unfold _ensure_seed_user
      dsimp only
      rw [if_pos hc, hu1]
      rfl
    have hu1mem := List.mem_of_find?_eq_some hu1
    have hu1n : u1.username = "demo" := by simpa using List.find?_some hu1
    have hpos : 0 < db.users.countP (fun u => u.username == "demo") :=
      List.countP_pos.mpr ⟨u0, hu0, by simp [hu0n]⟩
    refine ⟨db, u1.id, heq, ⟨u1, hu1mem, hu1n, rfl⟩, ?_, fun u hu => hu, fun _ => rfl⟩
    rw [Nat.max_eq_left hpos]
  | false =>
    have hnone : ∀ u ∈ db.users, u.username ≠ "demo" ∧ u.email ≠ "demo@example.com" := by
      intro u hu
      have hne := List.any_eq_false.mp hc u hu
      constructor
      · intro he
        exact hne (by simp [he])
      · intro he
        exact hne (by simp [he])
    have hfnone : db.users.find? (fun u => u.username == "demo") = none := by
      rw [List.find?_eq_none]
      intro u hu
      simp [(hnone u hu).1]
    have hfst : (_ensure_seed_user db now).1 =
        { db with users := db.users ++ [{ id := db.users_seq, username := "demo", email := "demo@example.com", created_at := now }], users_seq := db.users_seq + 1 } := by
      unfold _ensure_seed_user
      dsimp only
      rw [if_neg (by simp [hc])]
    have hsnd : (_ensure_seed_user db now).2 = some db.users_seq := by
      rw [eu_snd, hfst]
      change ((db.users ++ [_]).find? _).map _ = _
      rw [List.find?_append, hfnone, Option.none_or]
      rw [List.find?_cons_of_pos _ (by simp)]
      rfl
    have hzero : db.users.countP (fun u => u.username == "demo") = 0 := by
      rw [List.countP_eq_zero]
      intro u hu
      simp [(hnone u hu).1]
    refine ⟨(_ensure_seed_user db now).1, db.users_seq, ?_, ?_, ?_, ?_, ?_⟩
    · calc _ensure_seed_user db now
          = ((_ensure_seed_user db now).1, (_ensure_seed_user db now).2) := rfl
        _ = ((_ensure_seed_user db now).1, some db.users_seq) := by rw [hsnd]
    · rw [hfst]
      refine ⟨({ id := db.users_seq, username := "demo", email := "demo@example.com", created_at := now } : UserRow), ?_, rfl, rfl⟩
      show _ ∈ db.users ++ _
      simp
    · rw [hfst]
      show (db.users ++ _).countP _ = _
      rw [List.countP_append, hzero]
      rfl
    · intro u hu
      rw [hfst]
      show u ∈ db.users ++ _
      exact List.mem_append_left _ hu
    · intro hdemo
      obtain ⟨u, hu, hun⟩ := hdemo
      exact absurd hun (hnone u hu).1

/-- C4 witness: the amended theorem applied to the empty users table. -/
theorem C4_witness : ∃ db2 uid, _ensure_seed_user emptyDB 5 = (db2, some uid) ∧
    (∃ u ∈ db2.users, u.username = "demo" ∧ u.id = uid) ∧
    db2.users.countP (fun u => u.username == "demo") =
      max (emptyDB.users.countP (fun u => u.username == "demo")) 1 ∧
    (∀ u ∈ emptyDB.users, u ∈ db2.users) ∧
    ((∃ u ∈ emptyDB.users, u.username = "demo") → db2 = emptyDB) :=
  C4_ensure_seed_user_amended emptyDB 5 (Or.inr (by simp [emptyDB]))

/-- C7 counterexample: on a fresh empty store, a run that fails during the
seeding DML does not leave the persisted store exactly as it was before the
run: the schema statements were autocommitted as they executed, so the empty
tables and the unique index persist. -/
theorem C7_counterexample : aborted_run emptyDB ≠ some emptyDB := by decide

/-- C7 (amended): a run failing after the schema statements and before commit
leaves every table row and every AUTOINCREMENT sequence exactly as before the
run — no seed or metadata write becomes visible — but the schema creation
statements themselves persist (they are autocommitted DDL); in particular on a
store whose schema already fully exists, the aborted run leaves the store
exactly as it was. -/
theorem C7_aborted_run_amended (db : DB) :
    (∀ d, aborted_run db = some d →
      d.app_info = db.app_info ∧ d.users = db.users ∧ d.notes = db.notes ∧
      d.tags = db.tags ∧ d.note_tags = db.note_tags ∧
      d.app_info_seq = db.app_info_seq ∧ d.users_seq = db.users_seq ∧
      d.notes_seq = db.notes_seq ∧ d.tags_seq = db.tags_seq) ∧
    (db.has_app_info = true → db.has_users = true → db.has_notes = true →
      db.has_tags = true → db.has_note_tags = true → db.uq_notes_title = true →
      aborted_run db = some db) := by
  constructor
  · intro d h
    have hspec := schema_phase_spec db d h
    exact ⟨hspec.1, hspec.2.1, hspec.2.2.1, hspec.2.2.2.1, hspec.2.2.2.2.1,
      hspec.2.2.2.2.2.1, hspec.2.2.2.2.2.2.1, hspec.2.2.2.2.2.2.2.1, hspec.2.2.2.2.2.2.2.2.1⟩
  · obtain ⟨f1, f2, f3, f4, f5, f6, a, u, n, tg, nt, q1, q2, q3, q4⟩ := db
    intro h1 h2 h3 h4 h5 h6
    subst h1
    subst h2
    subst h3
    subst h4
    subst h5
    subst h6
    rfl

/-- C7 witness: on a store whose schema already exists the aborted run is a
strict no-op, and the row-preservation part applies to it. -/
theorem C7_witness : aborted_run dbAllTrue = some dbAllTrue ∧ dbAllTrue.notes = dbAllTrue.notes := by
  have h2 := (C7_aborted_run_amended dbAllTrue).2 rfl rfl rfl rfl rfl rfl
  exact ⟨h2, ((C7_aborted_run_amended dbAllTrue).1 dbAllTrue h2).2.2.1⟩

/-- C8 counterexample: after a fully successful provisioning of a fresh store,
a failure of the unguarded `os.makedirs("db_visualizer", ...)` call during the
descriptor-writing step propagates and makes the whole run fail (exit status
false), contradicting the claim that every filesystem failure in that step is
reported as a warning only. -/
theorem C8_counterexample : (main_run emptyDB 0 envMkdirFail).map Prod.snd = some false := by
  decide

/-- C8 (amended): once provisioning has committed, a failure while opening or
writing either descriptor file never fails the run and never changes the
committed store — both failures are reported as warnings — provided the
`db_visualizer` directory lookup/creation itself succeeds; a makedirs failure,
being outside the try blocks, fails the run (see the counterexample), though
the committed store still stands. -/
theorem C8_descriptor_failures_amended (db : DB) (now : Nat) (env : FsEnv) (d : DB)
    (h : run db now = some d)
    (hmk : env.db_visualizer_exists = true ∨ env.makedirs_result = FsOutcome.ok) :
    main_run db now env = some (d, true) ∧
    ∃ w, _write_connection_files env = some w ∧
      (env.conn_txt_write = FsOutcome.err → ("Warning: Could not save connection info") ∈ w) ∧
      (env.env_file_write = FsOutcome.err → ("Warning: Could not save environment variables") ∈ w) := by
  rcases env with ⟨c, de, mk, ef⟩
  cases c <;> cases de <;> cases mk <;> cases ef <;>
    simp only [main_run, h, _write_connection_files] <;> simp_all

/-- C8 witness: both descriptor writes failing on a provisioned fresh store:
the run still succeeds and both warnings are reported. -/
theorem C8_witness : ∃ d, run emptyDB 0 = some d ∧
    main_run emptyDB 0 envBothWriteFail = some (d, true) :=
  ⟨provisionedEmpty 0, run_empty_eq 0,
    (C8_descriptor_failures_amended emptyDB 0 envBothWriteFail (provisionedEmpty 0)
      (run_empty_eq 0) (Or.inl rfl)).1⟩

/-- C10: the app metadata upsert uses INSERT OR REPLACE, so for every seed key
already present before the run the whole row is replaced: afterwards every row
with that key has the seed value, carries the run timestamp as its creation
time, and has an id different from the replaced row (the old row is gone, a
fresh AUTOINCREMENT id took its place); such a row exists. -/
theorem C10_app_info_replace (db : DB) (now : Nat)
    (hid : ∀ r ∈ db.app_info, r.id < db.app_info_seq) :
    ∀ kv ∈ appInfoSeed, ∀ r0 ∈ db.app_info, r0.key = kv.1 →
      (∀ r ∈ (_upsert_app_info db now).app_info, r.key = kv.1 →
        r.id ≠ r0.id ∧ r.value = kv.2 ∧ r.created_at = now) ∧
      (∃ r ∈ (_upsert_app_info db now).app_info, r.key = kv.1) := by
  intro kv hkv r0 hr0 hr0k
  have hlt := hid r0 hr0
  constructor
  · intro r hr hrk
    rw [ua_app_spec] at hr
    rcases List.mem_append.mp hr with hrl | hrb
    · exfalso
      have hb : (r.key != "description" && (r.key != "author" && (r.key != "version" && r.key != "project_name"))) = true :=
        (List.mem_filter.mp hrl).2
      rw [hrk] at hb
      fin_cases hkv <;> simp at hb
    · simp only [appBlock, List.mem_cons, List.not_mem_nil, or_false] at hrb
      fin_cases hkv
      · rcases hrb with rfl | rfl | rfl | rfl
        · exact ⟨by show db.app_info_seq ≠ r0.id; omega, rfl, rfl⟩
        · exact absurd hrk (by simp)
        · exact absurd hrk (by simp)
        · exact absurd hrk (by simp)
      · rcases hrb with rfl | rfl | rfl | rfl
        · exact absurd hrk (by simp)
        · exact ⟨by show db.app_info_seq + 1 ≠ r0.id; omega, rfl, rfl⟩
        · exact absurd hrk (by simp)
        · exact absurd hrk (by simp)
      · rcases hrb with rfl | rfl | rfl | rfl
        · exact absurd hrk (by simp)
        · exact absurd hrk (by simp)
        · exact ⟨by show db.app_info_seq + 2 ≠ r0.id; omega, rfl, rfl⟩
        · exact absurd hrk (by simp)
      · rcases hrb with rfl | rfl | rfl | rfl
        · exact absurd hrk (by simp)
        · exact absurd hrk (by simp)
        · exact absurd hrk (by simp)
        · exact ⟨by show db.app_info_seq + 3 ≠ r0.id; omega, rfl, rfl⟩
  · rw [ua_app_spec]
    fin_cases hkv
    · refine ⟨{ id := db.app_info_seq, key := "project_name", value := "notes_database", created_at := now }, ?_, rfl⟩
      simp [appBlock]
    · refine ⟨{ id := db.app_info_seq + 1, key := "version", value := "0.2.0", created_at := now }, ?_, rfl⟩
      simp [appBlock]
    · refine ⟨{ id := db.app_info_seq + 2, key := "author", value := "John Doe", created_at := now }, ?_, rfl⟩
      simp [appBlock]
    · refine ⟨{ id := db.app_info_seq + 3, key := "description", value := "SQLite database for the Notemaster notes app (notes, tags, note_tags)", created_at := now }, ?_, rfl⟩
      simp [appBlock]

/-- C10 witness: replacing an existing version row. -/
theorem C10_witness :
    (∀ r ∈ (_upsert_app_info dbWithVersion 7).app_info, r.key = "version" →
      r.id ≠ 1 ∧ r.value = "0.2.0" ∧ r.created_at = 7) ∧
    (∃ r ∈ (_upsert_app_info dbWithVersion 7).app_info, r.key = "version") :=
  C10_app_info_replace dbWithVersion 7 (by decide) ("version", "0.2.0") (by decide)
    { id := 1, key := "version", value := "9.9.9", created_at := 0 } (by decide) rfl

/-- C1 counterexample: on a fresh empty store (all statements at clock 0),
running the provisioner twice does not reproduce the same table content as
running it once: INSERT OR REPLACE regenerates the app_info rows, so their ids
are 1..4 after one run but 5..8 after two runs. -/
theorem C1_counterexample :
    ((run emptyDB 0).bind (fun d => run d 0)).map (fun d => d.app_info.map AppInfoRow.id) ≠
      (run emptyDB 0).map (fun d => d.app_info.map AppInfoRow.id) := by
  rw [run_empty_eq 0]
  rw [Option.some_bind]
  have hp := run_establish (run_empty_eq 0)
  obtain ⟨d2, hrun, _, _, _, _, happ, _⟩ := run_of_provisioned (provisionedEmpty 0) 0 hp
  rw [hrun]
  have h2 : d2.app_info = appBlock 5 0 := by
    rw [happ]
    show (appBlock 1 0).filter notSeedAppKey ++ appBlock 5 0 = _
    rw [appBlock_filter_nil]
    rfl
  simp only [Option.map_some']
  rw [h2]
  intro hcon
  have hinj := Option.some.inj hcon
  have h5 : (appBlock 5 0).map AppInfoRow.id = [5, 6, 7, 8] := rfl
  have h1 : (provisionedEmpty 0).app_info.map AppInfoRow.id = [1, 2, 3, 4] := rfl
  rw [h5, h1] at hinj
  exact absurd hinj (by decide)

/-- C1 (amended): a second run over the store a successful run produced always
succeeds and leaves the row counts of every table identical, the users, tags
and note_tags tables identical in content, the notes identical except that
exactly the four seed-titled rows have their updated_at refreshed to the second
run's clock — stated exactly: the resulting notes list equals the old list
with, per seed title, the row of that title rewritten to the same row with
updated_at replaced by t2, every other row and field untouched — and the
app_info table with the same (key, value) pairs in the same order; but the
replaced app_info rows carry fresh ids and creation timestamps, so app_info
content is not preserved row for row (see the counterexample). -/
theorem C1_idempotence_amended (db : DB) (t1 t2 : Nat) (d1 : DB) (h1 : run db t1 = some d1) :
    ∃ d2, run d1 t2 = some d2 ∧
      d2.users = d1.users ∧ d2.tags = d1.tags ∧ d2.note_tags = d1.note_tags ∧
      d2.notes.length = d1.notes.length ∧
      d2.notes.map noteCore = d1.notes.map noteCore ∧
      d2.notes = noteSeed.foldl
        (fun ln s2 => updateFirst (fun n => n.title == s2.1) (fun n => { n with updated_at := t2 }) ln)
        d1.notes ∧
      (∀ n ∈ d1.notes, n.title ∉ seedTitles → n ∈ d2.notes) ∧
      (∀ s ∈ noteSeed, ∀ n0, d1.notes.find? (fun x => x.title == s.1) = some n0 →
        d2.notes.find? (fun x => x.title == s.1) = some { n0 with updated_at := t2 }) ∧
      d2.app_info.length = d1.app_info.length ∧
      d2.app_info.map appKV = d1.app_info.map appKV := by
  have hp := run_establish h1
  obtain ⟨d2, hrun, hu, ht, hnt, hcore, happ, hexact⟩ := run_of_provisioned d1 t2 hp
  obtain ⟨s, db3, uid, hs, he, hd⟩ := run_decomp h1
  have hdb3app : db3.app_info = (_upsert_app_info s t1).app_info := by
    have h2 := eu_app_info (_upsert_app_info s t1) t1
    rw [he] at h2
    exact h2
  have hd1app : d1.app_info = s.app_info.filter notSeedAppKey ++ appBlock s.app_info_seq t1 := by
    rw [hd, snt_app_info, sn_app_info, st_app_info, hdb3app, ua_app_spec]
  have hfilter : d1.app_info.filter notSeedAppKey = s.app_info.filter notSeedAppKey := by
    rw [hd1app, List.filter_append, filter_nk_idem, appBlock_filter_nil, List.append_nil]
  refine ⟨d2, hrun, hu, ht, hnt, ?_, hcore, hexact, ?_, ?_, ?_, ?_⟩
  · have hlen := congrArg List.length hcore
    simpa using hlen
  · intro n hn hns
    rw [hexact]
    refine mem_fold_updateFirst t2 noteSeed d1.notes n hn ?_
    intro s hs he2
    refine hns ?_
    rw [he2]
    exact List.mem_map_of_mem (fun s2 => s2.1) hs
  · intro s hs n0 h0
    rw [hexact]
    exact fold_updateFirst_find t2 noteSeed (by decide) d1.notes s hs n0 h0
  · rw [happ, hfilter, hd1app]
    simp only [List.length_append, appBlock_length]
  · rw [happ, hfilter, hd1app]
    simp only [List.map_append, appBlock_kv]

/-- C1 witness: the amended theorem applied to the store one run produced from
a fresh store at clock 3, rerun at clock 5. -/
theorem C1_witness : ∃ d2, run (provisionedEmpty 3) 5 = some d2 ∧
    d2.users = (provisionedEmpty 3).users ∧ d2.tags = (provisionedEmpty 3).tags ∧
    d2.note_tags = (provisionedEmpty 3).note_tags ∧
    d2.notes.length = (provisionedEmpty 3).notes.length ∧
    d2.notes.map noteCore = (provisionedEmpty 3).notes.map noteCore ∧
    d2.notes = noteSeed.foldl
      (fun ln s2 => updateFirst (fun n => n.title == s2.1) (fun n => { n with updated_at := 5 }) ln)
      (provisionedEmpty 3).notes ∧
    (∀ n ∈ (provisionedEmpty 3).notes, n.title ∉ seedTitles → n ∈ d2.notes) ∧
    (∀ s ∈ noteSeed, ∀ n0, (provisionedEmpty 3).notes.find? (fun x => x.title == s.1) = some n0 →
      d2.notes.find? (fun x => x.title == s.1) = some { n0 with updated_at := 5 }) ∧
    d2.app_info.length = (provisionedEmpty 3).app_info.length ∧
    d2.app_info.map appKV = (provisionedEmpty 3).app_info.map appKV :=
  C1_idempotence_amended emptyDB 3 5 (provisionedEmpty 3) (run_empty_eq 3)

/-- C2: for every seed note title, after any successful run (on a store that,
as SQLite guarantees, has no duplicate titles if the unique index exists) a
note with that title exists exactly once, and when a note with that title
already existed — with whatever content — the run updated that row's content,
is_archived and updated_at in place, preserving its id. -/
theorem C2_note_upsert_by_title (db : DB) (t : Nat) (d : DB)
    (hW : db.uq_notes_title = true → (db.notes.map NoteRow.title).Nodup)
    (h : run db t = some d) :
    ∀ s ∈ noteSeed,
      d.notes.countP (fun n => n.title == s.1) = 1 ∧
      (∀ n0 ∈ db.notes, n0.title = s.1 →
        ∃ n ∈ d.notes, n.id = n0.id ∧ n.title = s.1 ∧ n.content = s.2.1 ∧
          n.is_archived = s.2.2 ∧ n.updated_at = t) := by
  obtain ⟨s1, db3, uid, hs, he, hd⟩ := run_decomp h
  have hspec := schema_phase_spec db s1 hs
  have hdb3notes : db3.notes = db.notes := by
    have h2 := eu_notes (_upsert_app_info s1 t) t
    rw [he] at h2
    rw [h2, ua_notes]
    exact hspec.2.2.1
  have hnodup : (db.notes.map NoteRow.title).Nodup := by
    cases hq : db.uq_notes_title with
    | true => exact hW hq
    | false => exact hspec.2.2.2.2.2.2.2.2.2.2 hq
  intro s2 hs2
  constructor
  · have hnodup4 : (((_seed_tags db3 t).notes).map NoteRow.title).Nodup := by
      rw [st_notes, hdb3notes]
      exact hnodup
    have hnodup5 := sn_fold_nodup uid t noteSeed _ hnodup4
    obtain ⟨n, hfind, _, _, _, _⟩ := sn_fold_establish uid t noteSeed (by decide) (_seed_tags db3 t) s2 hs2
    have hdn : d.notes = (noteSeed.foldl (fun d2 x => upsertNote d2 x.1 x.2.1 uid x.2.2 t) (_seed_tags db3 t)).notes := by
      rw [hd, snt_notes, sn_unfold]
    rw [hdn]
    refine countP_title_eq_one _ s2.1 hnodup5 ?_
    refine ⟨n, List.mem_of_find?_eq_some hfind, ?_⟩
    have := List.find?_some hfind
    simpa using this
  · intro n0 hn0 hn0t
    have hf := find?_eq_of_nodup_title db.notes hnodup n0 hn0
    rw [hn0t] at hf
    have hf4 : ((_seed_tags db3 t).notes).find? (fun x => x.title == s2.1) = some n0 := by
      rw [st_notes, hdb3notes]
      exact hf
    have hupd := sn_fold_find_updated uid t noteSeed (by decide) _ s2 hs2 n0 hf4
    rw [← sn_unfold] at hupd
    have hfd : d.notes.find? (fun x => x.title == s2.1) = some (updNote s2.2.1 uid s2.2.2 t n0) := by
      rw [hd, snt_notes]
      exact hupd
    refine ⟨updNote s2.2.1 uid s2.2.2 t n0, List.mem_of_find?_eq_some hfd, rfl, ?_, rfl, rfl, rfl⟩
    show n0.title = s2.1
    exact hn0t

/-- C2 witness: a store already holding a note titled Retro checklist with
different content; after the run exactly one such note exists and its row was
updated in place with the seed content, keeping id 7. -/
theorem C2_witness : ∃ d, run dbC2 9 = some d ∧
    ∀ s ∈ noteSeed,
      d.notes.countP (fun n => n.title == s.1) = 1 ∧
      (∀ n0 ∈ dbC2.notes, n0.title = s.1 →
        ∃ n ∈ d.notes, n.id = n0.id ∧ n.title = s.1 ∧ n.content = s.2.1 ∧
          n.is_archived = s.2.2 ∧ n.updated_at = 9) := by
  cases h : run dbC2 9 with
  | none => exact absurd h (by decide)
  | some d => exact ⟨d, rfl, C2_note_upsert_by_title dbC2 9 d (fun _ => by decide) h⟩

/-- C6: starting from any store whose note-tag associations all reference
existing notes and tags, after any number of repeated runs of the provisioner
every row in note_tags still references a note id present in notes and a tag
id present in tags: no dangling associations exist in any reachable state. -/
theorem C6_referential_integrity (ts : List Nat) :
    ∀ (db d : DB), refIntegrity db → runs db ts = some d → refIntegrity d := by
  induction ts with
  | nil =>
    intro db d h0 h
    unfold runs at h
    obtain rfl := Option.some.inj h
    exact h0
  | cons t ts ih =>
    intro db d h0 h
    unfold runs at h
    cases hr : run db t with
    | none =>
      rw [hr] at h
      simp at h
    | some d1 =>
      rw [hr] at h
      rw [Option.some_bind] at h
      exact ih _ _ (run_preserves_ri hr h0) h

/-- C6 witness: two runs over a fresh store preserve referential integrity. -/
theorem C6_witness : ∃ d, runs emptyDB [3, 5] = some d ∧ refIntegrity d := by
  have h1 : run emptyDB 3 = some (provisionedEmpty 3) := run_empty_eq 3
  have hp := run_establish h1
  obtain ⟨d2, hrun2, _⟩ := run_of_provisioned (provisionedEmpty 3) 5 hp
  have hruns : runs emptyDB [3, 5] = some d2 := by
    show (run emptyDB 3).bind _ = some d2
    rw [h1, Option.some_bind]
    show (run (provisionedEmpty 3) 5).bind _ = some d2
    rw [hrun2, Option.some_bind]
    rfl
  exact ⟨d2, hruns, C6_referential_integrity [3, 5] emptyDB d2 (by decide) hruns⟩

/-- C9: a run never deletes any row from users, notes, tags or note_tags;
every pre-existing note survives as a row with the same id, title and creation
time; the only pre-existing rows it modifies are notes whose title is a seed
title and app_info rows whose key is a seed key — every user, tag and
association row, every note with a non-seed title and every app_info row with
a non-seed key is still present unchanged after the run. -/
theorem C9_run_frame (db : DB) (t : Nat) (d : DB) (h : run db t = some d) :
    (∀ u ∈ db.users, u ∈ d.users) ∧
    (∀ tg ∈ db.tags, tg ∈ d.tags) ∧
    (∀ nt ∈ db.note_tags, nt ∈ d.note_tags) ∧
    (∀ n ∈ db.notes, n.title ∉ seedTitles → n ∈ d.notes) ∧
    (∀ n ∈ db.notes, ∃ n2 ∈ d.notes, n2.id = n.id ∧ n2.title = n.title ∧ n2.created_at = n.created_at) ∧
    (∀ r ∈ db.app_info, r.key ∉ seedKeys → r ∈ d.app_info) := by
  obtain ⟨s1, db3, uid, hs, he, hd⟩ := run_decomp h
  have hspec := schema_phase_spec db s1 hs
  have husers3 : ∃ su, db3.users = db.users ++ su := by
    obtain ⟨su, hsu⟩ := eu_users_append (_upsert_app_info s1 t) t
    rw [he] at hsu
    refine ⟨su, ?_⟩
    rw [hsu, ua_users]
    rw [hspec.2.1]
  have hnotes3 : db3.notes = db.notes := by
    have h2 := eu_notes (_upsert_app_info s1 t) t
    rw [he] at h2
    rw [h2, ua_notes]
    exact hspec.2.2.1
  have htags3 : db3.tags = db.tags := by
    have h2 := eu_tags (_upsert_app_info s1 t) t
    rw [he] at h2
    rw [h2, ua_tags]
    exact hspec.2.2.2.1
  have hnt3 : db3.note_tags = db.note_tags := by
    have h2 := eu_note_tags (_upsert_app_info s1 t) t
    rw [he] at h2
    rw [h2, ua_note_tags]
    exact hspec.2.2.2.2.1
  have happ3 : db3.app_info = (_upsert_app_info s1 t).app_info := by
    have h2 := eu_app_info (_upsert_app_info s1 t) t
    rw [he] at h2
    exact h2
  refine ⟨?_, ?_, ?_, ?_, ?_, ?_⟩
  · intro u hu
    rw [hd, snt_users, sn_users, st_users]
    obtain ⟨su, hsu⟩ := husers3
    rw [hsu]
    exact List.mem_append_left _ hu
  · intro tg htg
    rw [hd, snt_tags, sn_tags]
    obtain ⟨stg, hstg, _⟩ := st_append db3 t
    rw [hstg, htags3]
    exact List.mem_append_left _ htg
  · intro nt hnt
    rw [hd, snt_unfold]
    have hany : ((_seed_notes (_seed_tags db3 t) uid t).note_tags.any (fun x => x == nt)) = true := by
      rw [sn_note_tags, st_note_tags, hnt3]
      exact List.any_eq_true.mpr ⟨nt, hnt, by simp⟩
    have hres := snt_fold_any_mono noteTagSeed _ t _ hany
    obtain ⟨x, hx, hxe⟩ := List.any_eq_true.mp hres
    have hxnt : x = nt := by simpa using hxe
    exact hxnt ▸ hx
  · intro n hn hns
    rw [hd, snt_notes, sn_unfold]
    refine sn_fold_keep_nonmatching uid t noteSeed _ n ?_ ?_
    · rw [st_notes, hnotes3]
      exact hn
    · intro s2 hs2 heq
      refine hns ?_
      rw [heq]
      exact List.mem_map_of_mem _ hs2
  · intro n hn
    rw [hd, snt_notes, sn_unfold]
    refine sn_fold_keep_core uid t noteSeed _ n ?_
    rw [st_notes, hnotes3]
    exact hn
  · intro r hr hrk
    rw [hd, snt_app_info, sn_app_info, st_app_info, happ3, ua_app_spec]
    refine List.mem_append_left _ ?_
    rw [List.mem_filter]
    refine ⟨by rw [hspec.1]; exact hr, ?_⟩
    have hks : r.key ≠ "project_name" ∧ r.key ≠ "version" ∧ r.key ≠ "author" ∧ r.key ≠ "description" := by
      simp only [seedKeys, appInfoSeed, List.map_cons, List.map_nil, List.mem_cons,
        List.not_mem_nil, or_false, not_or] at hrk
      exact ⟨hrk.1, hrk.2.1, hrk.2.2.1, hrk.2.2.2⟩
    simp [notSeedAppKey, hks.1, hks.2.1, hks.2.2.1, hks.2.2.2]

/-- C9 witness: a store holding one pre-existing row in each table, none of
them named like seed data, rerun at clock 3. -/
theorem C9_witness : ∃ d, run dbC9 3 = some d ∧
    (∀ u ∈ dbC9.users, u ∈ d.users) ∧
    (∀ tg ∈ dbC9.tags, tg ∈ d.tags) ∧
    (∀ nt ∈ dbC9.note_tags, nt ∈ d.note_tags) ∧
    (∀ n ∈ dbC9.notes, n.title ∉ seedTitles → n ∈ d.notes) ∧
    (∀ n ∈ dbC9.notes, ∃ n2 ∈ d.notes, n2.id = n.id ∧ n2.title = n.title ∧ n2.created_at = n.created_at) ∧
    (∀ r ∈ dbC9.app_info, r.key ∉ seedKeys → r ∈ d.app_info) := by
  cases h : run dbC9 3 with
  | none => exact absurd h (by decide)
  | some d => exact ⟨d, rfl, C9_run_frame dbC9 3 d h⟩

end NotesDB
